import Mathlib

set_option maxHeartbeats 1000000

/-!
Verification development for the omegagrid-agent backend
(`backend/app/agent.py`, `backend/app/sqlite_memory.py`, `backend/app/main.py`).

The Python code is shallowly embedded:
* JSON values (`json.loads` / `json.dumps`) are modelled on the integer
  fragment of JSON: floating-point literals are outside the embedding
  (IEEE floats are not representable), so the parser rejects a number
  continued by `.`/`e`/`E`, and float values produced by the vector store
  get a dedicated constructor that the parser never yields.
* The SQLite message table is a list of rows; `ORDER BY ts` is modelled as
  a sort by the lexicographic key (ts, id), matching SQLite's scan of the
  `(session_id, ts)` index whose ties are resolved by rowid.
* The Ollama chat endpoint is an opaque function from the message list to
  the raw textual completion; wall-clock timings are kept as the list of
  bucket keys only (values are real-time measurements).
-/

namespace OmegaGridAgent

/-- Left brace character (written via its code point). -/
def lb : Char := Char.ofNat 123

/-- Right brace character. -/
def rb : Char := Char.ofNat 125

/-- Double-quote character. -/
def qu : Char := Char.ofNat 34

/-- Backslash character. -/
def bs : Char := Char.ofNat 92

/-- Tab character. -/
def tabC : Char := Char.ofNat 9

/-- Line-feed character. -/
def lfC : Char := Char.ofNat 10

/-- Carriage-return character. -/
def crC : Char := Char.ofNat 13

/-- JSON values as produced by Python `json.loads` on the integer fragment.
`flt` holds the float-valued entries produced by the (spec-modelled) vector
store only; the parser never yields it. -/
inductive Json where
  | null : Json
  | bool (b : Bool) : Json
  | num (n : Int) : Json
  | flt (q : ℚ) : Json
  | str (s : String) : Json
  | arr (xs : List Json) : Json
  | obj (kvs : List (String × Json)) : Json

/-- Decimal digit character for `n < 10`. -/
def digitChar (n : Nat) : Char := Char.ofNat (48 + n)

/-- Lowercase hexadecimal digit character for `n < 16` (Python emits
lowercase hex in `\u00xx` escapes). -/
def hexChar (n : Nat) : Char := if n < 10 then Char.ofNat (48 + n) else Char.ofNat (87 + n)

/-- Little-endian decimal digits of `n` (least significant first), with fuel.
`natToRevDigits (n+1) n` is always enough fuel. -/
def natToRevDigits : Nat → Nat → List Nat
  | 0, _ => []
  | fuel + 1, n => if n = 0 then [] else n % 10 :: natToRevDigits fuel (n / 10)

/-- Decimal representation of a natural number, as characters. -/
def natChars (n : Nat) : List Char :=
  if n = 0 then [digitChar 0] else ((natToRevDigits (n + 1) n).reverse).map digitChar

/-- Decimal representation of an integer, as characters (Python `str(int)`). -/
def intChars (n : Int) : List Char :=
  if n < 0 then '-' :: natChars n.natAbs else natChars n.toNat

/-- Decimal rendering of a rational, used only for the spec-modelled float
distances in vector-search results (Python float `repr` is approximated by
exact rational rendering, truncated to 17 fractional digits). -/
def ratFracDigits : Nat → Nat → Nat → List Char
  | 0, _, _ => []
  | _, _, 0 => []
  | fuel + 1, rem, den =>
    if rem = 0 then []
    else digitChar (rem * 10 / den) :: ratFracDigits fuel (rem * 10 % den) den

/-- Decimal rendering of a rational number. -/
def ratChars (q : ℚ) : List Char :=
  let sign : List Char := if q < 0 then ['-'] else []
  let num := q.num.natAbs
  let den := q.den
  let whole := num / den
  let rem := num % den
  let frac := if rem = 0 then [digitChar 0] else ratFracDigits 17 rem den
  sign ++ natChars whole ++ '.' :: frac

/-- String content of a Lean string literal, as characters. -/
def toChars (s : String) : List Char := s.toList

/-- Encoding of one character inside a JSON string literal, following
Python `json.dumps` with `ensure_ascii=False`: escape quote, backslash and
control characters (with the five short escapes), pass everything else raw. -/
def encChar (c : Char) : List Char :=
  if c = qu then [bs, qu]
  else if c = bs then [bs, bs]
  else if c = Char.ofNat 8 then [bs, 'b']
  else if c = tabC then [bs, 't']
  else if c = lfC then [bs, 'n']
  else if c = Char.ofNat 12 then [bs, 'f']
  else if c = crC then [bs, 'r']
  else if c.toNat < 32 then [bs, 'u', '0', '0', hexChar (c.toNat / 16), hexChar (c.toNat % 16)]
  else [c]

/-- Body of an encoded JSON string (no surrounding quotes). -/
def encStrBody (cs : List Char) : List Char :=
  cs.foldr (fun c acc => encChar c ++ acc) []

/-- Encoded JSON string literal including the quotes. -/
def encStr (cs : List Char) : List Char := qu :: encStrBody cs ++ [qu]

/-- Join character lists with a separator (model of `", ".join`-style
concatenation used by `json.dumps` default separators). -/
def joinSep (sep : List Char) : List (List Char) → List Char
  | [] => []
  | [x] => x
  | x :: tl => x ++ sep ++ joinSep sep tl

mutual

/-- Serialization of a JSON value following `json.dumps(v, ensure_ascii=False)`
with the default separators `", "` and `": "`. -/
def encVal : Json → List Char
  | .null => toChars "null"
  | .bool true => toChars "true"
  | .bool false => toChars "false"
  | .num n => intChars n
  | .flt q => ratChars q
  | .str s => encStr s.toList
  | .arr xs => '[' :: encItemsC xs ++ [']']
  | .obj kvs => lb :: encMembersC kvs ++ [rb]

/-- Comma-space separated serialization of array items. -/
def encItemsC : List Json → List Char
  | [] => []
  | [x] => encVal x
  | x :: tl => encVal x ++ ',' :: ' ' :: encItemsC tl

/-- Comma-space separated serialization of object members. -/
def encMembersC : List (String × Json) → List Char
  | [] => []
  | [(k, v)] => encStr k.toList ++ ':' :: ' ' :: encVal v
  | (k, v) :: tl => encStr k.toList ++ ':' :: ' ' :: encVal v ++ ',' :: ' ' :: encMembersC tl

end

/-- The serialized JSON text of a value, as a string (`json.dumps` with
`ensure_ascii=False`). -/
def dumps (v : Json) : String := String.mk (encVal v)

/-- Indentation prefix of `n` spaces. -/
def indentSp (n : Nat) : List Char := List.replicate n ' '

mutual

/-- Serialization following `json.dumps(v, ensure_ascii=False, indent=2)`:
item separator is a comma followed by newline and indentation, key
separator `": "`; empty containers stay on one line. -/
def encValInd : Nat → Json → List Char
  | _, .null => toChars "null"
  | _, .bool true => toChars "true"
  | _, .bool false => toChars "false"
  | _, .num n => intChars n
  | _, .flt q => ratChars q
  | _, .str s => encStr s.toList
  | _, .arr [] => ['[', ']']
  | level, .arr (x :: tl) =>
    '[' :: lfC :: encItemsInd (level + 2) (x :: tl) ++ lfC :: indentSp level ++ [']']
  | _, .obj [] => [lb, rb]
  | level, .obj (p :: tl) =>
    lb :: lfC :: encMembersInd (level + 2) (p :: tl) ++ lfC :: indentSp level ++ [rb]

/-- Indented serialization of array items. -/
def encItemsInd : Nat → List Json → List Char
  | _, [] => []
  | level, [x] => indentSp level ++ encValInd level x
  | level, x :: tl =>
    indentSp level ++ encValInd level x ++ ',' :: lfC :: encItemsInd level tl

/-- Indented serialization of object members. -/
def encMembersInd : Nat → List (String × Json) → List Char
  | _, [] => []
  | level, [(k, v)] => indentSp level ++ encStr k.toList ++ ':' :: ' ' :: encValInd level v
  | level, (k, v) :: tl =>
    indentSp level ++ encStr k.toList ++ ':' :: ' ' :: encValInd level v ++
      ',' :: lfC :: encMembersInd level tl

end

/-- Pretty-printed JSON text (`json.dumps(v, ensure_ascii=False, indent=2)`). -/
def dumpsIndent (v : Json) : String := String.mk (encValInd 0 v)

/-- Python `repr` of a string, approximated: single quotes, backslash
escapes for backslash, quote and the common control characters. Used only
for debug-log text. -/
def pyReprStrChar (c : Char) : List Char :=
  if c = bs then [bs, bs]
  else if c = '\'' then [bs, '\'']
  else if c = tabC then [bs, 't']
  else if c = lfC then [bs, 'n']
  else if c = crC then [bs, 'r']
  else [c]

mutual

/-- Python `repr` of a JSON-decoded value, approximated (only feeds the
debug log, never a claim's observable). -/
def pyRepr : Json → List Char
  | .null => toChars "None"
  | .bool true => toChars "True"
  | .bool false => toChars "False"
  | .num n => intChars n
  | .flt q => ratChars q
  | .str s => '\'' :: (s.toList.foldr (fun c acc => pyReprStrChar c ++ acc) []) ++ ['\'']
  | .arr xs => '[' :: pyReprItems xs ++ [']']
  | .obj kvs => lb :: pyReprMembers kvs ++ [rb]

/-- Python `repr` of list items. -/
def pyReprItems : List Json → List Char
  | [] => []
  | [x] => pyRepr x
  | x :: tl => pyRepr x ++ ',' :: ' ' :: pyReprItems tl

/-- Python `repr` of dict members. -/
def pyReprMembers : List (String × Json) → List Char
  | [] => []
  | [(k, v)] => '\'' :: k.toList ++ '\'' :: ':' :: ' ' :: pyRepr v
  | (k, v) :: tl =>
    '\'' :: k.toList ++ '\'' :: ':' :: ' ' :: pyRepr v ++ ',' :: ' ' :: pyReprMembers tl

end

/-- Python `str()` of a JSON-decoded value: a string prints raw, anything
else prints like `repr`. -/
def pyStr : Json → String
  | .str s => s
  | v => String.mk (pyRepr v)

/-- Python `str()` where `none` models Python `None`. -/
def pyStrOpt : Option Json → String
  | none => "None"
  | some v => pyStr v

/-- Python truthiness of a JSON-decoded value. -/
def pyTruthy : Json → Bool
  | .null => false
  | .bool b => b
  | .num n => n != 0
  | .flt q => q != 0
  | .str s => !s.isEmpty
  | .arr xs => !xs.isEmpty
  | .obj kvs => !kvs.isEmpty

/-- Python `dict.get`: dict lookups under the parser's dict-update
semantics (keys are unique, first match wins). -/
def jGet (kvs : List (String × Json)) (k : String) : Option Json :=
  (kvs.find? fun p => p.1 == k).map (·.2)

/-- CPython dict insertion: an existing key keeps its position and gets the
new value; a new key is appended. -/
def dictInsert (m : List (String × Json)) (kv : String × Json) : List (String × Json) :=
  if m.any fun p => p.1 == kv.1 then
    m.map fun p => if p.1 == kv.1 then kv else p
  else m ++ [kv]

/-- Fold a raw member list into a Python dict (later duplicates overwrite
earlier values in place). -/
def dictOfPairs (ps : List (String × Json)) : List (String × Json) :=
  ps.foldl dictInsert []

/-- JSON whitespace per RFC 8259 (what Python's json scanner skips). -/
def wsChar (c : Char) : Bool := c = ' ' || c = tabC || c = lfC || c = crC

/-- Skip leading JSON whitespace. -/
def skipWs : List Char → List Char
  | [] => []
  | c :: cs => if wsChar c then skipWs cs else c :: cs

/-- Hexadecimal digit value (Python accepts both cases). -/
def hexVal (c : Char) : Option Nat :=
  if 48 ≤ c.toNat ∧ c.toNat ≤ 57 then some (c.toNat - 48)
  else if 97 ≤ c.toNat ∧ c.toNat ≤ 102 then some (c.toNat - 87)
  else if 65 ≤ c.toNat ∧ c.toNat ≤ 70 then some (c.toNat - 55)
  else none

/-- Decode four hex digits. -/
def decodeHex4 (a b c d : Char) : Option Nat := do
  let x ← hexVal a
  let y ← hexVal b
  let z ← hexVal c
  let w ← hexVal d
  pure (((x * 16 + y) * 16 + z) * 16 + w)

/-- Short escapes accepted after a backslash in a JSON string. -/
def simpleEsc (e : Char) : Option Char :=
  if e = qu then some qu
  else if e = bs then some bs
  else if e = '/' then some '/'
  else if e = 'b' then some (Char.ofNat 8)
  else if e = 'f' then some (Char.ofNat 12)
  else if e = 'n' then some lfC
  else if e = 'r' then some crC
  else if e = 't' then some tabC
  else none

/-- Parse the body of a JSON string literal after the opening quote,
returning its characters and the input after the closing quote. Mirrors
CPython's py_scanstring on the fragment of strings a Lean `String` can
hold: raw control characters are rejected, short and non-surrogate
`\uXXXX` escapes are decoded. A surrogate escape is rejected here
(CPython combines pairs and keeps lone surrogates; neither outcome is
representable in a Lean `Char`, and `dumps` with `ensure_ascii=False`
never emits one, so no claim exercises such input). -/
def parseStrBody : List Char → Option (List Char × List Char)
  | [] => none
  | c :: rest =>
    if c = qu then some ([], rest)
    else if c = bs then
      match rest with
      | [] => none
      | e :: rest2 =>
        if e = 'u' then
          match rest2 with
          | a :: b :: c2 :: d :: rest3 =>
            match decodeHex4 a b c2 d with
            | none => none
            | some n =>
              if 0xD800 ≤ n ∧ n ≤ 0xDFFF then none
              else (parseStrBody rest3).map fun p => (Char.ofNat n :: p.1, p.2)
          | _ => none
        else
          match simpleEsc e with
          | none => none
          | some ch => (parseStrBody rest2).map fun p => (ch :: p.1, p.2)
    else if c.toNat < 32 then none
    else (parseStrBody rest).map fun p => (c :: p.1, p.2)

/-- Decimal digit test. -/
def isDigitChar (c : Char) : Bool := 48 ≤ c.toNat && c.toNat ≤ 57

/-- Accumulate decimal digit characters into a natural number. -/
def charsToNat (cs : List Char) : Nat :=
  cs.foldl (fun a c => a * 10 + (c.toNat - 48)) 0

/-- Guard rejecting a number continued by a float indicator: the embedding
covers the integer fragment only (a continuation by a dot or an exponent
marker, a float in Python, has no representation here). -/
def floatGuard (n : Nat) (rest : List Char) : Option (Nat × List Char) :=
  match rest with
  | [] => some (n, [])
  | c :: _ => if c = '.' ∨ c = 'e' ∨ c = 'E' then none else some (n, rest)

/-- Parse the digits of an unsigned JSON number (Python NUMBER_RE integer
part: a single zero, or a nonzero digit followed by digits). -/
def parseNatPart : List Char → Option (Nat × List Char)
  | [] => none
  | c :: rest =>
    if c = digitChar 0 then floatGuard 0 rest
    else if isDigitChar c then
      floatGuard (charsToNat (c :: rest.takeWhile isDigitChar)) (rest.dropWhile isDigitChar)
    else none

mutual

/-- Parse one JSON value with explicit fuel, mirroring CPython scan_once
on the integer fragment. Each recursion level consumes at least one input
character before recursing, so the fuel supplied by `jsonLoads` (twice the
input length plus two) always suffices. -/
def parseVal : Nat → List Char → Option (Json × List Char)
  | 0, _ => none
  | fuel + 1, cs =>
    match skipWs cs with
    | [] => none
    | c :: rest =>
      if c = lb then
        match skipWs rest with
        | c2 :: r2 =>
          if c2 = rb then some (.obj [], r2)
          else (parseMembers fuel rest).map fun p => (Json.obj (dictOfPairs p.1), p.2)
        | [] => none
      else if c = '[' then
        match skipWs rest with
        | c2 :: r2 =>
          if c2 = ']' then some (.arr [], r2)
          else (parseItems fuel rest).map fun p => (Json.arr p.1, p.2)
        | [] => none
      else if c = qu then
        (parseStrBody rest).map fun p => (Json.str (String.mk p.1), p.2)
      else if c = 't' then
        match rest with
        | 'r' :: 'u' :: 'e' :: r => some (.bool true, r)
        | _ => none
      else if c = 'f' then
        match rest with
        | 'a' :: 'l' :: 's' :: 'e' :: r => some (.bool false, r)
        | _ => none
      else if c = 'n' then
        match rest with
        | 'u' :: 'l' :: 'l' :: r => some (.null, r)
        | _ => none
      else if c = '-' then
        (parseNatPart rest).map fun p => (Json.num (-(p.1 : Int)), p.2)
      else
        (parseNatPart (c :: rest)).map fun p => (Json.num (p.1 : Int), p.2)

/-- Parse the comma-separated items of a nonempty array, consuming the
closing bracket. -/
def parseItems : Nat → List Char → Option (List Json × List Char)
  | 0, _ => none
  | fuel + 1, cs =>
    (parseVal fuel cs).bind fun p =>
      match skipWs p.2 with
      | c :: r2 =>
        if c = ',' then (parseItems fuel r2).map fun q => (p.1 :: q.1, q.2)
        else if c = ']' then some ([p.1], r2)
        else none
      | [] => none

/-- Parse the comma-separated members of a nonempty object, consuming the
closing brace; returns the raw pair list in textual order (folded into a
dict by the caller). -/
def parseMembers : Nat → List Char → Option (List (String × Json) × List Char)
  | 0, _ => none
  | fuel + 1, cs =>
    match skipWs cs with
    | c :: rest =>
      if c = qu then
        (parseStrBody rest).bind fun kp =>
          match skipWs kp.2 with
          | c2 :: r2 =>
            if c2 = ':' then
              (parseVal fuel r2).bind fun vp =>
                match skipWs vp.2 with
                | c3 :: r4 =>
                  if c3 = ',' then
                    (parseMembers fuel r4).map fun q => ((String.mk kp.1, vp.1) :: q.1, q.2)
                  else if c3 = rb then some ([(String.mk kp.1, vp.1)], r4)
                  else none
                | [] => none
            else none
          | [] => none
      else none
    | [] => none

end

/-- Model of Python `json.loads`: parse one document and require only
whitespace to follow. -/
def jsonLoads (s : String) : Option Json :=
  let cs := s.toList
  match parseVal (2 * cs.length + 2) cs with
  | some p => if skipWs p.2 = [] then some p.1 else none
  | none => none

/-- Characters stripped by Python `str.strip()` (ASCII whitespace; the
rare Unicode spaces Python also strips do not occur here). -/
def stripChar (c : Char) : Bool :=
  wsChar c || c = Char.ofNat 11 || c = Char.ofNat 12

/-- Model of Python `str.strip()`. -/
def pyStrip (s : String) : String :=
  String.mk (((s.toList.dropWhile stripChar).reverse.dropWhile stripChar).reverse)

/-- The span matched by the DOTALL regex of `_parse_json_safely`: the
match is greedy, so it runs from the first opening brace to the last
closing brace, provided one follows. -/
def braceSlice (cs : List Char) : Option (List Char) :=
  let t := cs.dropWhile fun c => !(c = lb)
  let u := (t.reverse.dropWhile fun c => !(c = rb)).reverse
  if u.isEmpty then none else some u

/-- Error message of the ValueError raised when no JSON object can be
located (the first 300 characters of the stripped text are echoed). -/
def no_json_message (t : String) : String :=
  "Model did not return JSON. Got: " ++ String.mk (t.toList.take 300)

/-- Error tag modelling a `json.JSONDecodeError` escaping
`_parse_json_safely` (Python's positional detail is elided). -/
def decode_error : String := "JSONDecodeError"

/-- Model of `_parse_json_safely` (agent.py lines 49-56): strip; if the
text starts with an opening brace and ends with a closing one, parse it
whole with `json.loads`; otherwise parse the greedy brace span; raise a
ValueError when there is no span. The error branch models the exception
propagating to the caller. -/
def parse_json_safely (text : String) : Except String Json :=
  let t := pyStrip text
  let cs := t.toList
  if cs.head? = some lb ∧ cs.getLast? = some rb then
    match jsonLoads t with
    | some v => .ok v
    | none => .error decode_error
  else
    match braceSlice cs with
    | some sl =>
      match jsonLoads (String.mk sl) with
      | some v => .ok v
      | none => .error decode_error
    | none => .error (no_json_message t)

mutual

/-- Well-formedness: the image of Python objects under the embedding. Dict
keys are unique at every level (a Python dict cannot repeat a key), and no
float values occur (the integer fragment). -/
def wfb : Json → Bool
  | .obj kvs => decide (kvs.map Prod.fst).Nodup && wfbMembers kvs
  | .arr xs => wfbItems xs
  | .flt _ => false
  | _ => true

/-- Well-formedness of array elements. -/
def wfbItems : List Json → Bool
  | [] => true
  | x :: tl => wfb x && wfbItems tl

/-- Well-formedness of object member values. -/
def wfbMembers : List (String × Json) → Bool
  | [] => true
  | (_, v) :: tl => wfb v && wfbMembers tl

end

mutual

/-- Fuel sufficient for `parseVal` to parse the serialization of a value. -/
def fuelOf : Json → Nat
  | .arr xs => 1 + fuelItems xs
  | .obj kvs => 1 + fuelMembers kvs
  | _ => 1

/-- Fuel sufficient for `parseItems` on a serialized item list. -/
def fuelItems : List Json → Nat
  | [] => 1
  | x :: tl => 1 + max (fuelOf x) (fuelItems tl)

/-- Fuel sufficient for `parseMembers` on a serialized member list. -/
def fuelMembers : List (String × Json) → Nat
  | [] => 1
  | (_, v) :: tl => 1 + max (fuelOf v) (fuelMembers tl)

end

/-- Head constraint under which a serialized number followed by `rest`
parses back exactly: the continuation must not extend the digit run or
turn it into a float literal. Holds for the separators and closers JSON
serialization actually emits, and for the empty continuation. -/
def numStop : List Char → Prop
  | [] => True
  | c :: _ => isDigitChar c = false ∧ c ≠ '.' ∧ c ≠ 'e' ∧ c ≠ 'E'

theorem skipWs_cons_of_not_ws {c : Char} (h : wsChar c = false) (cs : List Char) :
    skipWs (c :: cs) = c :: cs := by
  simp [skipWs, h]

theorem skipWs_cons_of_ws {c : Char} (h : wsChar c = true) (cs : List Char) :
    skipWs (c :: cs) = skipWs cs := by
  simp [skipWs, h]

theorem natToRevDigits_all_lt (fuel n : Nat) : ∀ d ∈ natToRevDigits fuel n, d < 10 := by
  induction fuel generalizing n with
  | zero => simp [natToRevDigits]
  | succ f ih =>
    intro d hd
    rw [natToRevDigits] at hd
    by_cases h0 : n = 0
    · simp [h0] at hd
    · simp [h0] at hd
      rcases hd with h | h
      · omega
      · exact ih _ _ h

theorem natToRevDigits_ne_nil (fuel n : Nat) (h0 : n ≠ 0) (hf : 1 ≤ fuel) :
    natToRevDigits fuel n ≠ [] := by
  cases fuel with
  | zero => omega
  | succ f => simp [natToRevDigits, h0]

theorem natToRevDigits_zero (fuel : Nat) : natToRevDigits fuel 0 = [] := by
  cases fuel <;> simp [natToRevDigits]

theorem natToRevDigits_reverse_head (fuel n : Nat) (h0 : n ≠ 0) (hf : n ≤ fuel) :
    ∃ d l, (natToRevDigits fuel n).reverse = d :: l ∧ d ≠ 0 ∧ d < 10 := by
  induction fuel generalizing n with
  | zero => omega
  | succ f ih =>
    rw [natToRevDigits]
    simp only [h0, if_false, List.reverse_cons]
    by_cases hq : n / 10 = 0
    · refine ⟨n % 10, [], ?_, by omega, by omega⟩
      rw [hq, natToRevDigits_zero]
      rfl
    · obtain ⟨d, l, hl, hd0, hd10⟩ := ih (n / 10) hq (by omega)
      exact ⟨d, l ++ [n % 10], by rw [hl]; rfl, hd0, hd10⟩

theorem digitChar_toNat (d : Nat) (h : d < 10) : (digitChar d).toNat = 48 + d := by
  interval_cases d <;> rfl

theorem isDigitChar_digitChar (d : Nat) (h : d < 10) : isDigitChar (digitChar d) = true := by
  interval_cases d <;> rfl

theorem natChars_ne_nil (n : Nat) : natChars n ≠ [] := by
  rw [natChars]
  by_cases h0 : n = 0
  · simp [h0]
  · simp only [h0, if_false]
    have := natToRevDigits_ne_nil (n + 1) n h0 (by omega)
    simp [this]

theorem natChars_all_digit (n : Nat) : ∀ c ∈ natChars n, isDigitChar c = true := by
  intro c hc
  rw [natChars] at hc
  by_cases h0 : n = 0
  · simp [h0] at hc
    subst hc
    rfl
  · simp only [h0, if_false, List.mem_map, List.mem_reverse] at hc
    obtain ⟨d, hd, rfl⟩ := hc
    exact isDigitChar_digitChar d (natToRevDigits_all_lt _ _ d hd)

theorem digit_not_ws {c : Char} (h : isDigitChar c = true) : wsChar c = false := by
  simp only [isDigitChar, Bool.and_eq_true, decide_eq_true_eq] at h
  refine Bool.eq_false_iff.mpr fun hw => ?_
  simp only [wsChar, Bool.or_eq_true, decide_eq_true_eq] at hw
  rcases hw with ((h1 | h1) | h1) | h1 <;> subst h1 <;> exact absurd h (by decide)

theorem digitChar_ne (d : Nat) (hd : d < 10) (c : Char)
    (hc : c.toNat < 48 ∨ 57 < c.toNat) : digitChar d ≠ c := by
  intro h
  rw [← h, digitChar_toNat d hd] at hc
  omega

theorem charsToNat_map_digitChar (l : List Nat) (hl : ∀ d ∈ l, d < 10) (a : Nat) :
    (l.map digitChar).foldl (fun acc c => acc * 10 + (c.toNat - 48)) a =
      l.foldl (fun acc d => acc * 10 + d) a := by
  induction l generalizing a with
  | nil => rfl
  | cons d tl ih =>
    simp only [List.map_cons, List.foldl_cons]
    rw [digitChar_toNat d (hl d (by simp))]
    have : 48 + d - 48 = d := by omega
    rw [this]
    exact ih (fun x hx => hl x (by simp [hx])) _

theorem foldl_revDigits (fuel : Nat) : ∀ n a : Nat, n ≤ fuel →
    ((natToRevDigits fuel n).reverse).foldl (fun acc d => acc * 10 + d) a =
      a * 10 ^ (natToRevDigits fuel n).length + n := by
  induction fuel with
  | zero =>
    intro n a hf
    have : n = 0 := by omega
    subst this
    simp [natToRevDigits]
  | succ f ih =>
    intro n a hf
    by_cases h0 : n = 0
    · subst h0; simp [natToRevDigits]
    · rw [natToRevDigits]
      simp only [h0, if_false, List.reverse_cons, List.foldl_append, List.length_cons]
      rw [ih (n / 10) a (by omega)]
      simp only [List.foldl_cons, List.foldl_nil]
      rw [pow_succ, ← Nat.mul_assoc]
      omega

theorem charsToNat_natChars (n : Nat) : charsToNat (natChars n) = n := by
  rw [natChars]
  by_cases h0 : n = 0
  · simp [h0, charsToNat, digitChar]
  · simp only [h0, if_false, charsToNat]
    rw [charsToNat_map_digitChar _ (fun d hd => natToRevDigits_all_lt _ _ d (by
      rw [List.mem_reverse] at hd; exact hd)) 0]
    rw [foldl_revDigits (n + 1) n 0 (by omega)]
    simp

theorem floatGuard_of_numStop (n : Nat) (rest : List Char) (hr : numStop rest) :
    floatGuard n rest = some (n, rest) := by
  cases rest with
  | nil => rfl
  | cons c tl =>
    obtain ⟨_, h1, h2, h3⟩ := hr
    simp [floatGuard, h1, h2, h3]

theorem takeWhile_digits_stop (l : List Char) (hl : ∀ c ∈ l, isDigitChar c = true)
    (rest : List Char) (hr : numStop rest) :
    (l ++ rest).takeWhile isDigitChar = l ∧ (l ++ rest).dropWhile isDigitChar = rest := by
  have ht : (l ++ rest).takeWhile isDigitChar = l ++ rest.takeWhile isDigitChar :=
    List.takeWhile_append_of_pos hl
  have hd : (l ++ rest).dropWhile isDigitChar = rest.dropWhile isDigitChar :=
    List.dropWhile_append_of_pos hl
  have htr : rest.takeWhile isDigitChar = [] := by
    cases rest with
    | nil => rfl
    | cons c tl => obtain ⟨h1, _, _, _⟩ := hr; simp [List.takeWhile_cons, h1]
  have hdr : rest.dropWhile isDigitChar = rest := by
    cases rest with
    | nil => rfl
    | cons c tl => obtain ⟨h1, _, _, _⟩ := hr; simp [List.dropWhile_cons, h1]
  refine ⟨?_, ?_⟩
  · rw [ht, htr]; simp
  · rw [hd, hdr]

theorem parseNatPart_natChars (n : Nat) (rest : List Char) (hr : numStop rest) :
    parseNatPart (natChars n ++ rest) = some (n, rest) := by
  by_cases h0 : n = 0
  · subst h0
    rw [show natChars 0 = [digitChar 0] by rfl]
    simp only [List.cons_append, List.nil_append, parseNatPart, if_pos rfl]
    exact floatGuard_of_numStop 0 rest hr
  · obtain ⟨d, l, hrev, hd0, hd10⟩ := natToRevDigits_reverse_head (n + 1) n h0 (by omega)
    have hchars : natChars n = digitChar d :: l.map digitChar := by
      rw [natChars]
      simp only [h0, if_false, hrev, List.map_cons]
    have hldig : ∀ c ∈ l.map digitChar, isDigitChar c = true := by
      intro c hc
      rw [List.mem_map] at hc
      obtain ⟨x, hx, rfl⟩ := hc
      have hx10 : x < 10 := by
        have : x ∈ (natToRevDigits (n + 1) n).reverse := by rw [hrev]; simp [hx]
        rw [List.mem_reverse] at this
        exact natToRevDigits_all_lt _ _ x this
      exact isDigitChar_digitChar x hx10
    rw [hchars]
    simp only [List.cons_append, parseNatPart]
    rw [if_neg (by
      intro hEq
      have := congrArg Char.toNat hEq
      rw [digitChar_toNat d hd10, digitChar_toNat 0 (by omega)] at this
      omega)]
    rw [if_pos (isDigitChar_digitChar d hd10)]
    obtain ⟨hTake, hDrop⟩ := takeWhile_digits_stop (l.map digitChar) hldig rest hr
    rw [hTake, hDrop]
    have hval : charsToNat (digitChar d :: l.map digitChar) = n := by
      have := charsToNat_natChars n
      rw [hchars] at this
      exact this
    rw [hval]
    exact floatGuard_of_numStop n rest hr

theorem hexVal_hexChar (d : Nat) (h : d < 16) : hexVal (hexChar d) = some d := by
  interval_cases d <;> rfl

theorem decodeHex4_ctl (t : Nat) (h : t < 32) :
    decodeHex4 '0' '0' (hexChar (t / 16)) (hexChar (t % 16)) = some t := by
  have h1 : hexVal '0' = some 0 := rfl
  have h2 := hexVal_hexChar (t / 16) (by omega)
  have h3 := hexVal_hexChar (t % 16) (by omega)
  simp only [decodeHex4, h1, h2, h3, Option.bind_eq_bind, Option.some_bind, Option.pure_def]
  have : ((0 * 16 + 0) * 16 + t / 16) * 16 + t % 16 = t := by omega
  rw [this]

theorem encStrBody_cons (c : Char) (tl : List Char) :
    encStrBody (c :: tl) = encChar c ++ encStrBody tl := rfl

theorem parseStrBody_shortEsc (e c : Char) (he : e ≠ 'u') (hse : simpleEsc e = some c)
    (tl rest out : List Char) (ih : parseStrBody out = some (tl, rest)) :
    parseStrBody (bs :: e :: out) = some (c :: tl, rest) := by
  rw [parseStrBody.eq_def]
  dsimp only
  rw [if_neg (by decide : ¬(bs = qu)), if_pos rfl]
  rw [if_neg he, hse]
  rw [ih]
  rfl

theorem parseStrBody_enc (cs rest : List Char) :
    parseStrBody (encStrBody cs ++ qu :: rest) = some (cs, rest) := by
  induction cs with
  | nil =>
    rw [show encStrBody [] = [] from rfl, List.nil_append]
    rw [parseStrBody.eq_def]
    dsimp only
    rw [if_pos rfl]
  | cons c tl ih =>
    rw [encStrBody_cons, List.append_assoc]
    by_cases hq : c = qu
    · subst hq
      rw [show encChar qu = [bs, qu] from rfl]
      exact parseStrBody_shortEsc qu qu (by decide) rfl tl rest _ ih
    · by_cases hb : c = bs
      · subst hb
        rw [show encChar bs = [bs, bs] from by rw [encChar]; rw [if_neg (by decide), if_pos rfl]]
        exact parseStrBody_shortEsc bs bs (by decide) rfl tl rest _ ih
      · by_cases h8 : c = Char.ofNat 8
        · subst h8
          rw [show encChar (Char.ofNat 8) = [bs, 'b'] from rfl]
          exact parseStrBody_shortEsc 'b' (Char.ofNat 8) (by decide) rfl tl rest _ ih
        · by_cases hT : c = tabC
          · subst hT
            rw [show encChar tabC = [bs, 't'] from rfl]
            exact parseStrBody_shortEsc 't' tabC (by decide) rfl tl rest _ ih
          · by_cases hN : c = lfC
            · subst hN
              rw [show encChar lfC = [bs, 'n'] from rfl]
              exact parseStrBody_shortEsc 'n' lfC (by decide) rfl tl rest _ ih
            · by_cases hF : c = Char.ofNat 12
              · subst hF
                rw [show encChar (Char.ofNat 12) = [bs, 'f'] from rfl]
                exact parseStrBody_shortEsc 'f' (Char.ofNat 12) (by decide) rfl tl rest _ ih
              · by_cases hR : c = crC
                · subst hR
                  rw [show encChar crC = [bs, 'r'] from rfl]
                  exact parseStrBody_shortEsc 'r' crC (by decide) rfl tl rest _ ih
                · by_cases hC : c.toNat < 32
                  · rw [show encChar c =
                        [bs, 'u', '0', '0', hexChar (c.toNat / 16), hexChar (c.toNat % 16)] from by
                      rw [encChar]
                      rw [if_neg hq, if_neg hb, if_neg h8, if_neg hT, if_neg hN, if_neg hF,
                        if_neg hR, if_pos hC]]
                    simp only [List.cons_append, List.nil_append]
                    rw [parseStrBody.eq_def]
                    dsimp only
                    rw [if_neg (by decide : ¬(bs = qu)), if_pos rfl, if_pos rfl]
                    rw [decodeHex4_ctl c.toNat hC]
                    dsimp only
                    rw [if_neg (show ¬(55296 ≤ c.toNat ∧ c.toNat ≤ 57343) by omega)]
                    rw [ih]
                    simp [Char.ofNat_toNat]
                  · rw [show encChar c = [c] from by
                      rw [encChar]
                      rw [if_neg hq, if_neg hb, if_neg h8, if_neg hT, if_neg hN, if_neg hF,
                        if_neg hR, if_neg hC]]
                    simp only [List.cons_append, List.nil_append]
                    rw [parseStrBody.eq_def]
                    dsimp only
                    rw [if_neg hq, if_neg hb, if_neg hC, ih]
                    rfl

theorem digit_ne_of_isDigit {c c' : Char} (h : isDigitChar c = true)
    (h' : isDigitChar c' = false) : c ≠ c' := by
  intro hEq
  rw [hEq] at h
  rw [h] at h'
  exact Bool.noConfusion h'

theorem natChars_head (n : Nat) :
    ∃ c cs, natChars n = c :: cs ∧ isDigitChar c = true := by
  cases h : natChars n with
  | nil => exact absurd h (natChars_ne_nil n)
  | cons c cs =>
    refine ⟨c, cs, rfl, natChars_all_digit n c ?_⟩
    rw [h]
    simp

theorem encVal_head (v : Json) (hwf : wfb v = true) :
    ∃ c cs, encVal v = c :: cs ∧ wsChar c = false ∧ c ≠ ']' ∧ c ≠ rb := by
  have hside : ∀ c : Char, c ∈ ['n', 't', 'f', '-', qu, '[', lb] →
      wsChar c = false ∧ c ≠ ']' ∧ c ≠ rb := by decide
  cases v with
  | null => exact ⟨'n', _, rfl, hside 'n' (by decide)⟩
  | bool b =>
    cases b with
    | true => exact ⟨'t', _, rfl, hside 't' (by decide)⟩
    | false => exact ⟨'f', _, rfl, hside 'f' (by decide)⟩
  | num n =>
    rw [show encVal (.num n) = intChars n from rfl, intChars]
    by_cases hneg : n < 0
    · exact ⟨'-', _, by rw [if_pos hneg], hside '-' (by decide)⟩
    · obtain ⟨c, cs, hc, hdig⟩ := natChars_head n.toNat
      refine ⟨c, cs, by rw [if_neg hneg, hc], digit_not_ws hdig, ?_, ?_⟩
      · exact digit_ne_of_isDigit hdig (by decide)
      · exact digit_ne_of_isDigit hdig (by decide)
  | flt q => simp [wfb] at hwf
  | str s => exact ⟨qu, _, rfl, hside qu (by decide)⟩
  | arr xs => exact ⟨'[', _, rfl, hside '[' (by decide)⟩
  | obj kvs => exact ⟨lb, _, rfl, hside lb (by decide)⟩

theorem parseVal_cons_sp (fuel : Nat) (cs : List Char) :
    parseVal fuel (' ' :: cs) = parseVal fuel cs := by
  cases fuel with
  | zero => rfl
  | succ f =>
    rw [parseVal.eq_def]
    conv_rhs => rw [parseVal.eq_def]
    dsimp only
    rw [show skipWs (' ' :: cs) = skipWs cs from by simp [skipWs, wsChar]]

theorem parseItems_cons_sp (fuel : Nat) (cs : List Char) :
    parseItems fuel (' ' :: cs) = parseItems fuel cs := by
  cases fuel with
  | zero => rfl
  | succ f =>
    rw [parseItems.eq_def]
    conv_rhs => rw [parseItems.eq_def]
    dsimp only
    rw [parseVal_cons_sp]

theorem parseMembers_cons_sp (fuel : Nat) (cs : List Char) :
    parseMembers fuel (' ' :: cs) = parseMembers fuel cs := by
  cases fuel with
  | zero => rfl
  | succ f =>
    rw [parseMembers.eq_def]
    conv_rhs => rw [parseMembers.eq_def]
    dsimp only
    rw [show skipWs (' ' :: cs) = skipWs cs from by simp [skipWs, wsChar]]

theorem foldl_dictInsert_eq (kvs : List (String × Json)) :
    ∀ acc : List (String × Json),
      (acc.map Prod.fst ++ kvs.map Prod.fst).Nodup →
      kvs.foldl dictInsert acc = acc ++ kvs := by
  induction kvs with
  | nil => intro acc _; simp
  | cons kv tl ih =>
    intro acc hnd
    obtain ⟨k, v⟩ := kv
    have hnotin : ∀ p ∈ acc, ¬(p.1 = k) := by
      intro p hp hpk
      have hdisj := List.disjoint_of_nodup_append hnd
      exact hdisj (List.mem_map_of_mem Prod.fst hp) (by simp [hpk])
    have hins : dictInsert acc (k, v) = acc ++ [(k, v)] := by
      rw [dictInsert, if_neg]
      simp only [List.any_eq_true, beq_iff_eq, not_exists, not_and]
      push_neg
      intro p hp
      exact hnotin p hp
    rw [List.foldl_cons, hins, ih (acc ++ [(k, v)]) ?_]
    · simp
    · simp only [List.map_append, List.map_cons, List.map_nil] at hnd ⊢
      rw [List.append_cons] at hnd
      simpa using hnd

theorem dictOfPairs_eq (kvs : List (String × Json)) (h : (kvs.map Prod.fst).Nodup) :
    dictOfPairs kvs = kvs := by
  rw [dictOfPairs, foldl_dictInsert_eq kvs [] (by simpa using h)]
  simp

theorem parseVal_num (f : Nat) (n : Int) (rest : List Char) (hr : numStop rest) :
    parseVal (f + 1) (intChars n ++ rest) = some (.num n, rest) := by
  rw [intChars]
  by_cases hneg : n < 0
  · rw [if_pos hneg]
    rw [show ('-' :: natChars n.natAbs) ++ rest = '-' :: (natChars n.natAbs ++ rest) from rfl]
    rw [show parseVal (f + 1) ('-' :: (natChars n.natAbs ++ rest)) =
      (parseNatPart (natChars n.natAbs ++ rest)).map
        (fun p => (Json.num (-(p.1 : Int)), p.2)) from rfl]
    rw [parseNatPart_natChars _ _ hr]
    show some (Json.num (-((n.natAbs : Nat) : Int)), rest) = some (Json.num n, rest)
    rw [show -((n.natAbs : Nat) : Int) = n from by omega]
  · rw [if_neg hneg]
    obtain ⟨c0, l0, hc, hdig⟩ := natChars_head n.toNat
    rw [hc, List.cons_append]
    rw [parseVal.eq_def]
    dsimp only
    rw [skipWs_cons_of_not_ws (digit_not_ws hdig)]
    dsimp only
    rw [if_neg (digit_ne_of_isDigit hdig (by decide)),
      if_neg (digit_ne_of_isDigit hdig (by decide)),
      if_neg (digit_ne_of_isDigit hdig (by decide)),
      if_neg (digit_ne_of_isDigit hdig (by decide)),
      if_neg (digit_ne_of_isDigit hdig (by decide)),
      if_neg (digit_ne_of_isDigit hdig (by decide)),
      if_neg (digit_ne_of_isDigit hdig (by decide))]
    rw [← List.cons_append, ← hc]
    rw [parseNatPart_natChars _ _ hr]
    show some (Json.num ((n.toNat : Nat) : Int), rest) = some (Json.num n, rest)
    rw [show ((n.toNat : Nat) : Int) = n from by omega]

mutual

/-- Round-trip: `parseVal` inverts `encVal` on well-formed values, for any
sufficient fuel and any continuation that cannot extend a number literal. -/
theorem parseVal_encVal (v : Json) (hwf : wfb v = true) :
    ∀ fuel rest, fuelOf v ≤ fuel → numStop rest →
      parseVal fuel (encVal v ++ rest) = some (v, rest) := by
  cases v with
  | null =>
    intro fuel rest hf _
    cases fuel with
    | zero => exact absurd hf (by decide)
    | succ f => rfl
  | bool b =>
    intro fuel rest hf _
    cases fuel with
    | zero =>
      have hE : fuelOf (Json.bool b) = 1 := rfl
      omega
    | succ f => cases b <;> rfl
  | num n =>
    intro fuel rest hf hr
    cases fuel with
    | zero =>
      have hE : fuelOf (Json.num n) = 1 := rfl
      omega
    | succ f => exact parseVal_num f n rest hr
  | flt q => simp [wfb] at hwf
  | str s =>
    intro fuel rest hf _
    cases fuel with
    | zero =>
      have hE : fuelOf (Json.str s) = 1 := rfl
      omega
    | succ f =>
      have harg : encVal (.str s) ++ rest = qu :: (encStrBody s.toList ++ qu :: rest) := by
        rw [show encVal (.str s) = qu :: encStrBody s.toList ++ [qu] from rfl]
        simp
      rw [harg]
      rw [show parseVal (f + 1) (qu :: (encStrBody s.toList ++ qu :: rest)) =
        (parseStrBody (encStrBody s.toList ++ qu :: rest)).map
          (fun p => (Json.str (String.mk p.1), p.2)) from rfl]
      rw [parseStrBody_enc]
      rfl
  | arr xs =>
    intro fuel rest hf _
    cases xs with
    | nil =>
      cases fuel with
      | zero => exact absurd hf (by decide)
      | succ f => rfl
    | cons x tl =>
      cases fuel with
      | zero =>
        have hE : fuelOf (Json.arr (x :: tl)) = 1 + fuelItems (x :: tl) := rfl
        omega
      | succ f =>
        have hwf2 : wfb x = true ∧ wfbItems tl = true := by
          have : wfbItems (x :: tl) = true := hwf
          rw [wfbItems, Bool.and_eq_true] at this
          exact this
        have hfi : fuelItems (x :: tl) ≤ f := by
          have hE : fuelOf (Json.arr (x :: tl)) = 1 + fuelItems (x :: tl) := rfl
          omega
        obtain ⟨c0, cs0, hc0, hws0, hne0, _⟩ := encVal_head x hwf2.1
        have hitems : ∃ W, encItemsC (x :: tl) ++ ']' :: rest = c0 :: W := by
          cases tl with
          | nil =>
            refine ⟨cs0 ++ ']' :: rest, ?_⟩
            rw [show encItemsC [x] = encVal x from rfl, hc0]
            simp
          | cons y tl' =>
            refine ⟨cs0 ++ (',' :: ' ' :: encItemsC (y :: tl') ++ ']' :: rest), ?_⟩
            rw [show encItemsC (x :: y :: tl') =
              encVal x ++ ',' :: ' ' :: encItemsC (y :: tl') from rfl, hc0]
            simp
        obtain ⟨W, hW⟩ := hitems
        have harg : encVal (.arr (x :: tl)) ++ rest =
            '[' :: (encItemsC (x :: tl) ++ ']' :: rest) := by
          rw [show encVal (.arr (x :: tl)) = '[' :: encItemsC (x :: tl) ++ [']'] from rfl]
          simp
        rw [harg]
        rw [parseVal.eq_def]
        dsimp only
        rw [skipWs_cons_of_not_ws (by decide)]
        dsimp only
        rw [if_neg (by decide : ¬('[' = lb)), if_pos rfl]
        rw [hW, skipWs_cons_of_not_ws hws0]
        dsimp only
        rw [if_neg hne0]
        rw [← hW]
        rw [parseItems_encItems (x :: tl) hwf (by simp) f rest hfi]
        rfl
  | obj kvs =>
    intro fuel rest hf _
    cases kvs with
    | nil =>
      cases fuel with
      | zero => exact absurd hf (by decide)
      | succ f => rfl
    | cons p tl =>
      obtain ⟨k, v⟩ := p
      cases fuel with
      | zero =>
        have hE : fuelOf (Json.obj ((k, v) :: tl)) = 1 + fuelMembers ((k, v) :: tl) := rfl
        omega
      | succ f =>
        have hwf2 : (((k, v) :: tl).map Prod.fst).Nodup ∧ wfbMembers ((k, v) :: tl) = true := by
          have : wfb (.obj ((k, v) :: tl)) = true := hwf
          rw [wfb, Bool.and_eq_true, decide_eq_true_eq] at this
          exact this
        have hfm : fuelMembers ((k, v) :: tl) ≤ f := by
          have hE : fuelOf (Json.obj ((k, v) :: tl)) = 1 + fuelMembers ((k, v) :: tl) := rfl
          omega
        have hhead : ∃ W, encMembersC ((k, v) :: tl) ++ rb :: rest = qu :: W := by
          cases tl with
          | nil =>
            refine ⟨encStrBody k.toList ++ [qu] ++ (':' :: ' ' :: encVal v) ++ rb :: rest, ?_⟩
            rw [show encMembersC [(k, v)] = encStr k.toList ++ ':' :: ' ' :: encVal v from rfl,
              encStr]
            simp
          | cons p' tl' =>
            refine ⟨encStrBody k.toList ++ [qu] ++
              (':' :: ' ' :: encVal v ++ ',' :: ' ' :: encMembersC (p' :: tl')) ++ rb :: rest, ?_⟩
            rw [show encMembersC ((k, v) :: p' :: tl') = encStr k.toList ++
              ':' :: ' ' :: encVal v ++ ',' :: ' ' :: encMembersC (p' :: tl') from rfl, encStr]
            simp
        obtain ⟨W, hW⟩ := hhead
        have harg : encVal (.obj ((k, v) :: tl)) ++ rest =
            lb :: (encMembersC ((k, v) :: tl) ++ rb :: rest) := by
          rw [show encVal (.obj ((k, v) :: tl)) = lb :: encMembersC ((k, v) :: tl) ++ [rb]
            from rfl]
          simp
        rw [harg]
        rw [parseVal.eq_def]
        dsimp only
        rw [skipWs_cons_of_not_ws (by decide)]
        dsimp only
        rw [if_pos rfl]
        rw [hW, skipWs_cons_of_not_ws (by decide : wsChar qu = false)]
        dsimp only
        rw [if_neg (by decide : ¬(qu = rb))]
        rw [← hW]
        rw [parseMembers_encMembers ((k, v) :: tl) hwf2.2 (by simp) f rest hfm]
        dsimp only [Option.map_some']
        rw [dictOfPairs_eq _ hwf2.1]

/-- Round-trip for nonempty array item lists. -/
theorem parseItems_encItems (xs : List Json) (hwf : wfbItems xs = true) (hne : xs ≠ []) :
    ∀ fuel rest, fuelItems xs ≤ fuel →
      parseItems fuel (encItemsC xs ++ ']' :: rest) = some (xs, rest) := by
  cases xs with
  | nil => exact absurd rfl hne
  | cons x tl =>
    intro fuel rest hf
    have hwf2 : wfb x = true ∧ wfbItems tl = true := by
      rw [wfbItems, Bool.and_eq_true] at hwf
      exact hwf
    have hE : fuelItems (x :: tl) = 1 + max (fuelOf x) (fuelItems tl) := rfl
    cases fuel with
    | zero => omega
    | succ f =>
      have hmax1 := Nat.le_max_left (fuelOf x) (fuelItems tl)
      have hmax2 := Nat.le_max_right (fuelOf x) (fuelItems tl)
      have hfx : fuelOf x ≤ f := by omega
      have hftl : fuelItems tl ≤ f := by omega
      rw [parseItems.eq_def]
      dsimp only
      cases tl with
      | nil =>
        rw [show encItemsC [x] = encVal x from rfl]
        rw [parseVal_encVal x hwf2.1 f (']' :: rest) hfx
          ⟨by decide, by decide, by decide, by decide⟩]
        rw [Option.some_bind]
        rw [skipWs_cons_of_not_ws (by decide : wsChar ']' = false)]
        dsimp only
        rw [if_neg (by decide : ¬(']' = ',')), if_pos rfl]
      | cons y tl' =>
        have harg : encItemsC (x :: y :: tl') ++ ']' :: rest =
            encVal x ++ (',' :: ' ' :: (encItemsC (y :: tl') ++ ']' :: rest)) := by
          rw [show encItemsC (x :: y :: tl') =
            encVal x ++ ',' :: ' ' :: encItemsC (y :: tl') from rfl]
          simp
        rw [harg]
        rw [parseVal_encVal x hwf2.1 f (',' :: ' ' :: (encItemsC (y :: tl') ++ ']' :: rest))
          hfx ⟨by decide, by decide, by decide, by decide⟩]
        rw [Option.some_bind]
        rw [skipWs_cons_of_not_ws (by decide : wsChar ',' = false)]
        dsimp only
        rw [if_pos rfl]
        rw [parseItems_cons_sp]
        rw [parseItems_encItems (y :: tl') hwf2.2 (by simp) f rest hftl]
        rfl

/-- Round-trip for nonempty object member lists (raw pair order). -/
theorem parseMembers_encMembers (kvs : List (String × Json)) (hwf : wfbMembers kvs = true)
    (hne : kvs ≠ []) :
    ∀ fuel rest, fuelMembers kvs ≤ fuel →
      parseMembers fuel (encMembersC kvs ++ rb :: rest) = some (kvs, rest) := by
  cases kvs with
  | nil => exact absurd rfl hne
  | cons p tl =>
    obtain ⟨k, v⟩ := p
    intro fuel rest hf
    have hwf2 : wfb v = true ∧ wfbMembers tl = true := by
      rw [wfbMembers, Bool.and_eq_true] at hwf
      exact hwf
    have hE : fuelMembers ((k, v) :: tl) = 1 + max (fuelOf v) (fuelMembers tl) := rfl
    cases fuel with
    | zero => omega
    | succ f =>
      have hmax1 := Nat.le_max_left (fuelOf v) (fuelMembers tl)
      have hmax2 := Nat.le_max_right (fuelOf v) (fuelMembers tl)
      have hfv : fuelOf v ≤ f := by omega
      have hftl : fuelMembers tl ≤ f := by omega
      rw [parseMembers.eq_def]
      dsimp only
      cases tl with
      | nil =>
        have harg : encMembersC [(k, v)] ++ rb :: rest =
            qu :: (encStrBody k.toList ++ qu :: (':' :: ' ' :: (encVal v ++ rb :: rest))) := by
          rw [show encMembersC [(k, v)] = encStr k.toList ++ ':' :: ' ' :: encVal v from rfl,
            encStr]
          simp
        rw [harg]
        rw [skipWs_cons_of_not_ws (by decide : wsChar qu = false)]
        dsimp only
        rw [if_pos rfl]
        rw [parseStrBody_enc]
        rw [Option.some_bind]
        rw [skipWs_cons_of_not_ws (by decide : wsChar ':' = false)]
        dsimp only
        rw [if_pos rfl]
        rw [parseVal_cons_sp]
        rw [parseVal_encVal v hwf2.1 f (rb :: rest) hfv
          ⟨by decide, by decide, by decide, by decide⟩]
        rw [Option.some_bind]
        rw [skipWs_cons_of_not_ws (by decide : wsChar rb = false)]
        dsimp only
        rw [if_neg (by decide : ¬(rb = ',')), if_pos rfl]
        rfl
      | cons p' tl' =>
        have harg : encMembersC ((k, v) :: p' :: tl') ++ rb :: rest =
            qu :: (encStrBody k.toList ++ qu :: (':' :: ' ' ::
              (encVal v ++ (',' :: ' ' :: (encMembersC (p' :: tl') ++ rb :: rest))))) := by
          rw [show encMembersC ((k, v) :: p' :: tl') = encStr k.toList ++
            ':' :: ' ' :: encVal v ++ ',' :: ' ' :: encMembersC (p' :: tl') from rfl, encStr]
          simp
        rw [harg]
        rw [skipWs_cons_of_not_ws (by decide : wsChar qu = false)]
        dsimp only
        rw [if_pos rfl]
        rw [parseStrBody_enc]
        rw [Option.some_bind]
        rw [skipWs_cons_of_not_ws (by decide : wsChar ':' = false)]
        dsimp only
        rw [if_pos rfl]
        rw [parseVal_cons_sp]
        rw [parseVal_encVal v hwf2.1 f
          (',' :: ' ' :: (encMembersC (p' :: tl') ++ rb :: rest))
          hfv ⟨by decide, by decide, by decide, by decide⟩]
        rw [Option.some_bind]
        rw [skipWs_cons_of_not_ws (by decide : wsChar ',' = false)]
        dsimp only
        rw [if_pos rfl]
        rw [parseMembers_cons_sp]
        rw [parseMembers_encMembers (p' :: tl') hwf2.2 (by simp) f rest hftl]
        rfl

end

theorem encVal_length_pos (v : Json) : 1 ≤ (encVal v).length := by
  cases v with
  | null => decide
  | bool b => cases b <;> decide
  | num n =>
    rw [show encVal (.num n) = intChars n from rfl, intChars]
    by_cases hneg : n < 0
    · rw [if_pos hneg]; simp
    · rw [if_neg hneg]
      have := natChars_ne_nil n.toNat
      exact List.length_pos.mpr this
  | flt q =>
    rw [show encVal (.flt q) = ratChars q from rfl, ratChars]
    simp only [List.length_append, List.length_cons]
    omega
  | str s =>
    rw [show encVal (.str s) = qu :: encStrBody s.toList ++ [qu] from rfl]
    simp
  | arr xs =>
    rw [show encVal (.arr xs) = '[' :: encItemsC xs ++ [']'] from rfl]
    simp
  | obj kvs =>
    rw [show encVal (.obj kvs) = lb :: encMembersC kvs ++ [rb] from rfl]
    simp

mutual

/-- The fuel bound is below the serialized length, so the fuel `jsonLoads`
supplies always suffices. -/
theorem fuelOf_le_length (v : Json) : fuelOf v ≤ (encVal v).length := by
  cases v with
  | null => decide
  | bool b => cases b <;> decide
  | num n =>
    have h1 : fuelOf (Json.num n) = 1 := rfl
    have := encVal_length_pos (.num n)
    omega
  | flt q =>
    have h1 : fuelOf (Json.flt q) = 1 := rfl
    have := encVal_length_pos (.flt q)
    omega
  | str s =>
    have h1 : fuelOf (Json.str s) = 1 := rfl
    have := encVal_length_pos (.str s)
    omega
  | arr xs =>
    have h1 : fuelOf (Json.arr xs) = 1 + fuelItems xs := rfl
    have h2 : (encVal (Json.arr xs)).length = (encItemsC xs).length + 2 := by
      rw [show encVal (.arr xs) = '[' :: encItemsC xs ++ [']'] from rfl]
      simp
    have h3 := fuelItems_le_length xs
    omega
  | obj kvs =>
    have h1 : fuelOf (Json.obj kvs) = 1 + fuelMembers kvs := rfl
    have h2 : (encVal (Json.obj kvs)).length = (encMembersC kvs).length + 2 := by
      rw [show encVal (.obj kvs) = lb :: encMembersC kvs ++ [rb] from rfl]
      simp
    have h3 := fuelMembers_le_length kvs
    omega

/-- Fuel bound for item lists. -/
theorem fuelItems_le_length (xs : List Json) :
    fuelItems xs ≤ (encItemsC xs).length + 1 := by
  cases xs with
  | nil => decide
  | cons x tl =>
    have h1 : fuelItems (x :: tl) = 1 + max (fuelOf x) (fuelItems tl) := rfl
    have hx := fuelOf_le_length x
    have hp := encVal_length_pos x
    cases tl with
    | nil =>
      have h2 : encItemsC [x] = encVal x := rfl
      have h4 : fuelItems ([] : List Json) = 1 := rfl
      rw [h1, h2]
      have hmax : max (fuelOf x) (fuelItems ([] : List Json)) ≤ (encVal x).length := by
        apply Nat.max_le.mpr
        exact ⟨hx, by omega⟩
      omega
    | cons y tl' =>
      have h2 : encItemsC (x :: y :: tl') = encVal x ++ ',' :: ' ' :: encItemsC (y :: tl') := rfl
      have h3 := fuelItems_le_length (y :: tl')
      rw [h1, h2]
      have hmax : max (fuelOf x) (fuelItems (y :: tl')) ≤
          (encVal x).length + (encItemsC (y :: tl')).length + 2 := by
        apply Nat.max_le.mpr
        constructor <;> omega
      simp only [List.length_append, List.length_cons]
      omega

/-- Fuel bound for member lists. -/
theorem fuelMembers_le_length (kvs : List (String × Json)) :
    fuelMembers kvs ≤ (encMembersC kvs).length + 1 := by
  cases kvs with
  | nil => decide
  | cons p tl =>
    obtain ⟨k, v⟩ := p
    have h1 : fuelMembers ((k, v) :: tl) = 1 + max (fuelOf v) (fuelMembers tl) := rfl
    have hv := fuelOf_le_length v
    have hp := encVal_length_pos v
    cases tl with
    | nil =>
      have h2 : encMembersC [(k, v)] = encStr k.toList ++ ':' :: ' ' :: encVal v := rfl
      rw [h1, h2]
      have hmax : max (fuelOf v) (fuelMembers ([] : List (String × Json))) ≤
          (encVal v).length + 1 := by
        apply Nat.max_le.mpr
        refine ⟨by omega, ?_⟩
        have : fuelMembers ([] : List (String × Json)) = 1 := rfl
        omega
      simp only [List.length_append, List.length_cons]
      omega
    | cons p' tl' =>
      have h2 : encMembersC ((k, v) :: p' :: tl') =
          encStr k.toList ++ ':' :: ' ' :: encVal v ++ ',' :: ' ' :: encMembersC (p' :: tl') :=
        rfl
      have h3 := fuelMembers_le_length (p' :: tl')
      rw [h1, h2]
      have hmax : max (fuelOf v) (fuelMembers (p' :: tl')) ≤
          (encVal v).length + (encMembersC (p' :: tl')).length + 2 := by
        apply Nat.max_le.mpr
        constructor <;> omega
      simp only [List.length_append, List.length_cons]
      omega

end

/-- Round-trip at the API level: `json.loads` inverts `json.dumps` on every
well-formed value (the image of the Python objects that reach the store). -/
theorem loads_dumps (v : Json) (hwf : wfb v = true) : jsonLoads (dumps v) = some v := by
  rw [jsonLoads, dumps]
  have hcs : (String.mk (encVal v)).toList = encVal v := rfl
  rw [hcs]
  have hfuel : fuelOf v ≤ 2 * (encVal v).length + 2 := by
    have := fuelOf_le_length v
    omega
  have hrt := parseVal_encVal v hwf (2 * (encVal v).length + 2) [] hfuel trivial
  rw [List.append_nil] at hrt
  rw [hrt]
  rfl

/-- Python values handed to `add_message`: a plain string (the
`isinstance(content, str)` branch) or any other JSON-shaped value. -/
inductive PyContent where
  | pstr (s : String) : PyContent
  | pjson (j : Json) : PyContent

/-- A row of the `messages` table. -/
structure MsgRow where
  id : Nat
  session_id : Nat
  ts : ℚ
  role : String
  content_json : String

/-- The `MemoryDB` state (sqlite_memory.py): the `messages` table together
with its AUTOINCREMENT counter. The `sessions` table influences no claim
(message rows are never validated against it) and is omitted. -/
structure MemoryDB where
  nextId : Nat
  rows : List MsgRow

/-- A freshly initialised database. -/
def MemoryDB.empty : MemoryDB := ⟨1, []⟩

/-- Model of `MemoryDB.add_message`: a plain string is wrapped in the
scalar encoding, any other value is stored verbatim; the new row carries
the supplied timestamp (`time.time()` is an external input). -/
def add_message (db : MemoryDB) (session_id : Nat) (role : String) (content : PyContent)
    (ts : ℚ) : MemoryDB :=
  let payload : Json := match content with
    | .pstr s => .obj [("content", .str s)]
    | .pjson j => j
  ⟨db.nextId + 1, db.rows ++ [⟨db.nextId, session_id, ts, role, dumps payload⟩]⟩

/-- Chronological order on rows: by timestamp, ties by rowid — the order in
which SQLite's scan of the `(session_id, ts)` index yields rows. -/
def rowLe (a b : MsgRow) : Prop := a.ts < b.ts ∨ (a.ts = b.ts ∧ a.id ≤ b.id)

instance : DecidableRel rowLe := fun a b => by
  unfold rowLe
  infer_instance

instance : IsTotal MsgRow rowLe := by
  constructor
  intro a b
  rcases lt_trichotomy a.ts b.ts with h | h | h
  · exact Or.inl (Or.inl h)
  · rcases Nat.le_total a.id b.id with h2 | h2
    · exact Or.inl (Or.inr ⟨h, h2⟩)
    · exact Or.inr (Or.inr ⟨h.symm, h2⟩)
  · exact Or.inr (Or.inl h)

instance : IsTrans MsgRow rowLe := by
  constructor
  intro a b c hab hbc
  rcases hab with h1 | ⟨h1, h1'⟩ <;> rcases hbc with h2 | ⟨h2, h2'⟩
  · exact Or.inl (lt_trans h1 h2)
  · exact Or.inl (h2 ▸ h1)
  · exact Or.inl (h1 ▸ h2)
  · exact Or.inr ⟨h1.trans h2, le_trans h1' h2'⟩

/-- The rows of one session, in insertion order (the WHERE filter). -/
def sessionRows (db : MemoryDB) (session_id : Nat) : List MsgRow :=
  db.rows.filter fun r => r.session_id == session_id

/-- A session's rows in chronological order — the result set of
`ORDER BY ts` (ties resolved by rowid, as the index scan does). -/
def chronoRows (db : MemoryDB) (session_id : Nat) : List MsgRow :=
  List.insertionSort rowLe (sessionRows db session_id)

/-- A chat message as rebuilt by `load_tail` for the model prompt. -/
structure ChatMsg where
  role : String
  content : Json

instance : Inhabited ChatMsg := ⟨⟨"", .null⟩⟩

/-- The read-path normalization of `load_tail` (sqlite_memory.py lines
98-101): a dict of exactly one key `"content"` unwraps, anything else is
serialized back to its canonical JSON text. -/
def normalizeTail (payload : Json) : Json :=
  match payload with
  | .obj [(k, v)] => if k = "content" then v else .str (dumps payload)
  | _ => .str (dumps payload)

/-- The read-path normalization of `list_messages` (sqlite_memory.py lines
119-123), textually identical to the one in `load_tail`. -/
def normalizeList (payload : Json) : Json :=
  match payload with
  | .obj [(k, v)] => if k = "content" then v else .str (dumps payload)
  | _ => .str (dumps payload)

/-- Model of `MemoryDB.load_tail`: last `tail` messages of the session in
chronological order (DESC scan + LIMIT, then reversed in Python), each
projected to role/content with normalization. `none` models the
`json.loads` exception on a corrupt stored row. -/
def load_tail (db : MemoryDB) (session_id tail : Nat) : Option (List ChatMsg) :=
  let desc := (chronoRows db session_id).reverse
  let rows := (desc.take tail).reverse
  rows.mapM fun r => (jsonLoads r.content_json).map fun payload =>
    ChatMsg.mk r.role (normalizeTail payload)

/-- A full message record as returned by `list_messages`. -/
structure FullMsg where
  id : Nat
  session_id : Nat
  ts : ℚ
  role : String
  content : Json

instance : Inhabited FullMsg := ⟨⟨0, 0, 0, "", .null⟩⟩

/-- Model of `MemoryDB.list_messages`: paginated chronological listing with
full metadata and the same normalization. -/
def list_messages (db : MemoryDB) (session_id : Nat) (limit : Nat := 200)
    (offset : Nat := 0) : Option (List FullMsg) :=
  (((chronoRows db session_id).drop offset).take limit).mapM fun r =>
    (jsonLoads r.content_json).map fun payload =>
      FullMsg.mk r.id r.session_id r.ts r.role (normalizeList payload)

/-- Every stored row of the session parses back (true for every state the
code itself writes; arbitrary states could hold corrupt text on which the
Python read paths raise). -/
def readableSession (db : MemoryDB) (session_id : Nat) : Bool :=
  (sessionRows db session_id).all fun r => (jsonLoads r.content_json).isSome

theorem mapM_eq_map_of_isSome {α β : Type} [Inhabited β] (f : α → Option β) :
    ∀ l : List α, (∀ a ∈ l, (f a).isSome = true) →
      l.mapM f = some (l.map fun a => (f a).getD default) := by
  intro l
  induction l with
  | nil => intro _; rfl
  | cons a tl ih =>
    intro h
    have ha : (f a).isSome = true := h a (by simp)
    obtain ⟨b, hb⟩ := Option.isSome_iff_exists.mp ha
    rw [List.mapM_cons, hb, ih fun x hx => h x (by simp [hx])]
    simp [hb]

/-- The scalar shape `\x7b"content": X\x7d` that the read paths unwrap. -/
def contentShape (v : Json) : Bool :=
  match v with
  | .obj [(k, _)] => k == "content"
  | _ => false

/-- String test on JSON values (`isinstance(content, str)` discriminates
before storage, so a stored structured payload is never a bare string). -/
def isStrB (v : Json) : Bool :=
  match v with
  | .str _ => true
  | _ => false

theorem normalizeTail_eq_normalizeList (payload : Json) :
    normalizeTail payload = normalizeList payload := by
  cases payload with
  | obj kvs =>
    cases kvs with
    | nil => rfl
    | cons h t =>
      obtain ⟨k, v⟩ := h
      cases t with
      | nil => rfl
      | cons h2 t2 => rfl
  | null => rfl
  | bool b => rfl
  | num n => rfl
  | flt q => rfl
  | str s => rfl
  | arr xs => rfl

theorem normalizeTail_of_not_shape (v : Json) (h : contentShape v = false) :
    normalizeTail v = .str (dumps v) := by
  cases v with
  | obj kvs =>
    cases kvs with
    | nil => rfl
    | cons hd t =>
      obtain ⟨k, v'⟩ := hd
      cases t with
      | nil =>
        rw [contentShape] at h
        rw [normalizeTail, if_neg]
        simpa using h
      | cons h2 t2 => rfl
  | null => rfl
  | bool b => rfl
  | num n => rfl
  | flt q => rfl
  | str s => rfl
  | arr xs => rfl

/-- C4 (message content round-trip): storing a plain string reads back as
that string via both read paths; storing a well-formed non-string value not
shaped exactly like the scalar wrapper reads back as its canonical JSON
text; and the scalar/structured normalization applied by the two read
paths is the same function. -/
theorem c4_content_roundtrip :
    (∀ sid role ts (s : String),
      load_tail (add_message MemoryDB.empty sid role (.pstr s) ts) sid 1 =
        some [ChatMsg.mk role (.str s)]) ∧
    (∀ sid role ts (s : String),
      list_messages (add_message MemoryDB.empty sid role (.pstr s) ts) sid 1 0 =
        some [FullMsg.mk 1 sid ts role (.str s)]) ∧
    (∀ sid role ts (v : Json), wfb v = true → contentShape v = false → isStrB v = false →
      load_tail (add_message MemoryDB.empty sid role (.pjson v) ts) sid 1 =
        some [ChatMsg.mk role (.str (dumps v))] ∧
      list_messages (add_message MemoryDB.empty sid role (.pjson v) ts) sid 1 0 =
        some [FullMsg.mk 1 sid ts role (.str (dumps v))]) ∧
    (∀ payload, normalizeTail payload = normalizeList payload) := by
  have hwrap : ∀ s : String, wfb (.obj [("content", .str s)]) = true := fun s => rfl
  refine ⟨?_, ?_, ?_, normalizeTail_eq_normalizeList⟩
  · intro sid role ts s
    simp only [load_tail, add_message, MemoryDB.empty, chronoRows, sessionRows]
    simp only [List.filter, beq_self_eq_true, List.insertionSort, List.orderedInsert]
    simp only [List.reverse_cons, List.reverse_nil, List.nil_append, List.take,
      List.mapM_cons, List.mapM_nil]
    rw [loads_dumps _ (hwrap s)]
    rfl
  · intro sid role ts s
    simp only [list_messages, add_message, MemoryDB.empty, chronoRows, sessionRows]
    simp only [List.filter, beq_self_eq_true, List.insertionSort, List.orderedInsert]
    simp only [List.drop, List.take, List.mapM_cons, List.mapM_nil]
    rw [loads_dumps _ (hwrap s)]
    rfl
  · intro sid role ts v hwf hshape hstr
    constructor
    · simp only [load_tail, add_message, MemoryDB.empty, chronoRows, sessionRows]
      simp only [List.filter, beq_self_eq_true, List.insertionSort, List.orderedInsert]
      simp only [List.reverse_cons, List.reverse_nil, List.nil_append, List.take,
        List.mapM_cons, List.mapM_nil]
      rw [loads_dumps _ hwf]
      simp [normalizeTail_of_not_shape v hshape]
    · simp only [list_messages, add_message, MemoryDB.empty, chronoRows, sessionRows]
      simp only [List.filter, beq_self_eq_true, List.insertionSort, List.orderedInsert]
      simp only [List.drop, List.take, List.mapM_cons, List.mapM_nil]
      rw [loads_dumps _ hwf]
      simp [← normalizeTail_eq_normalizeList, normalizeTail_of_not_shape v hshape]

/-- C4 witness: the spec's own examples, evaluated concretely — storing
"hello" reads back "hello", and storing the object with keys a, b reads
back its canonical JSON text. -/
theorem c4_content_roundtrip_witness :
    load_tail (add_message MemoryDB.empty 1 "user" (.pstr "hello") 0) 1 1 =
      some [ChatMsg.mk "user" (.str "hello")] ∧
    load_tail (add_message MemoryDB.empty 1 "user"
        (.pjson (.obj [("a", .num 1), ("b", .num 2)])) 0) 1 1 =
      some [ChatMsg.mk "user" (.str (dumps (.obj [("a", .num 1), ("b", .num 2)])))] := by
  refine ⟨c4_content_roundtrip.1 1 "user" 0 "hello", ?_⟩
  exact (c4_content_roundtrip.2.2.1 1 "user" 0 (.obj [("a", .num 1), ("b", .num 2)])
    (by decide) (by decide) (by decide)).1

theorem readPath_eq {β : Type} [Inhabited β] (rows' : List MsgRow) (g : MsgRow → Json → β)
    (h : ∀ r ∈ rows', (jsonLoads r.content_json).isSome = true) :
    (rows'.mapM fun r => (jsonLoads r.content_json).map fun payload => g r payload) =
      some (rows'.map fun r => g r ((jsonLoads r.content_json).getD .null)) := by
  rw [mapM_eq_map_of_isSome _ rows' (by
    intro a ha
    obtain ⟨x, hx⟩ := Option.isSome_iff_exists.mp (h a ha)
    simp [hx])]
  congr 1
  apply List.map_congr_left
  intro a ha
  obtain ⟨x, hx⟩ := Option.isSome_iff_exists.mp (h a ha)
  rw [hx]
  rfl

/-- C5 (tail retrieval): under a readable store, `load_tail sid n` returns
exactly `min n count` messages; the full listing is chronologically sorted
by (ts, id); and the tail is the role/content projection of the suffix of
the full chronological listing. -/
theorem c5_load_tail_suffix (db : MemoryDB) (sid n : Nat)
    (h : readableSession db sid = true) :
    ∃ ms full,
      load_tail db sid n = some ms ∧
      list_messages db sid (sessionRows db sid).length 0 = some full ∧
      ms.length = min n (sessionRows db sid).length ∧
      full.Pairwise (fun a b => a.ts < b.ts ∨ (a.ts = b.ts ∧ a.id ≤ b.id)) ∧
      ms = (full.drop (full.length - n)).map fun m => ChatMsg.mk m.role m.content := by
  classical
  have hperm : (chronoRows db sid).Perm (sessionRows db sid) :=
    List.perm_insertionSort rowLe _
  have hlen : (chronoRows db sid).length = (sessionRows db sid).length := hperm.length_eq
  have hmem : ∀ r ∈ chronoRows db sid, (jsonLoads r.content_json).isSome = true := by
    intro r hr
    have hr2 : r ∈ sessionRows db sid := hperm.mem_iff.mp hr
    rw [readableSession, List.all_eq_true] at h
    exact h r hr2
  have hTail : load_tail db sid n =
      some (((((chronoRows db sid).reverse).take n).reverse).map fun r =>
        ChatMsg.mk r.role (normalizeTail ((jsonLoads r.content_json).getD .null))) := by
    rw [load_tail]
    exact readPath_eq _ _ (by
      intro r hr
      apply hmem
      rw [List.mem_reverse] at hr
      have := List.mem_of_mem_take hr
      rwa [List.mem_reverse] at this)
  have hFull : list_messages db sid (sessionRows db sid).length 0 =
      some ((chronoRows db sid).map fun r =>
        FullMsg.mk r.id r.session_id r.ts r.role
          (normalizeList ((jsonLoads r.content_json).getD .null))) := by
    rw [list_messages]
    rw [List.drop_zero, ← hlen, List.take_length]
    exact readPath_eq _ _ hmem
  refine ⟨_, _, hTail, hFull, ?_, ?_, ?_⟩
  · simp [← hlen, Nat.min_comm]
  · have hs : (chronoRows db sid).Pairwise rowLe :=
      List.sorted_insertionSort rowLe (sessionRows db sid)
    exact List.Pairwise.map _ (fun a b hab => hab) hs
  · have hsuffix : (((chronoRows db sid).reverse).take n).reverse =
        (chronoRows db sid).drop ((chronoRows db sid).length - n) := by
      rw [← List.rtake_eq_reverse_take_reverse]
      rfl
    rw [hsuffix, List.length_map]
    conv_rhs => rw [← List.map_drop, List.map_map]
    apply List.map_congr_left
    intro r hr
    simp [Function.comp, normalizeTail_eq_normalizeList]

/-- C5 witness: a two-message session whose timestamps arrive out of order,
read back with a tail of 1. -/
theorem c5_load_tail_suffix_witness :
    ∃ ms full,
      load_tail (add_message (add_message MemoryDB.empty 1 "user" (.pstr "a") 5)
        1 "tool" (.pstr "b") 3) 1 1 = some ms ∧
      list_messages (add_message (add_message MemoryDB.empty 1 "user" (.pstr "a") 5)
          1 "tool" (.pstr "b") 3) 1
        (sessionRows (add_message (add_message MemoryDB.empty 1 "user" (.pstr "a") 5)
          1 "tool" (.pstr "b") 3) 1).length 0 = some full ∧
      ms.length = min 1 (sessionRows (add_message (add_message MemoryDB.empty 1 "user"
        (.pstr "a") 5) 1 "tool" (.pstr "b") 3) 1).length ∧
      full.Pairwise (fun a b => a.ts < b.ts ∨ (a.ts = b.ts ∧ a.id ≤ b.id)) ∧
      ms = (full.drop (full.length - 1)).map fun m => ChatMsg.mk m.role m.content :=
  c5_load_tail_suffix _ 1 1 (by decide)

/-- Decimal string of a natural number. -/
def natStr (n : Nat) : String := String.mk (natChars n)

/-- Modelled from the spec: `vector_memory.py` is not under src/ (only its
callers and the spec describe it), so a Memory Item is modelled from §3 of
the spec — id, text, embedding (owned by the index) and metadata. The
embedding type is a parameter; the external embedding service is an opaque
function into it. -/
structure VItem (E : Type) where
  memory_id : String
  text : String
  emb : E
  meta : Json

/-- Modelled from the spec: the Semantic Memory Index state — the retained
items plus a counter for fresh ids. -/
structure VState (E : Type) where
  items : List (VItem E)
  nextId : Nat

/-- An empty index. -/
def VState.empty (E : Type) : VState E := ⟨[], 0⟩

/-- A search hit: text, metadata and the transient distance (§3). -/
structure Hit where
  text : String
  metadata : Json
  distance : ℚ

section VectorMemory

variable {E : Type} (embed : String → E) (dist : E → E → ℚ) (dedup_distance : ℚ)

/-- Modelled from the spec §4.2: locate the nearest existing item to an
embedding (the first of the minimal-distance items). -/
def findNearest : List (VItem E) → E → Option (VItem E × ℚ)
  | [], _ => none
  | it :: tl, e =>
    match findNearest tl e with
    | none => some (it, dist e it.emb)
    | some (b, d) => if dist e it.emb ≤ d then some (it, dist e it.emb) else some (b, d)

/-- Modelled from the spec §4.2: `add(text, metadata)` — obtain an
embedding, find the nearest existing item; if its distance is below the
dedup threshold, skip the write and return the existing item's id with
`skipped=true` and a reason; otherwise persist a new item under a fresh
id with `skipped=false`. -/
def vmem_add (vst : VState E) (text : String) (meta : Json) : Json × VState E :=
  let e := embed text
  let ins : Json × VState E :=
    let newId := "mem-" ++ natStr vst.nextId
    (.obj [("memory_id", .str newId), ("skipped", .bool false), ("reason", .str "")],
     ⟨vst.items ++ [⟨newId, text, e, meta⟩], vst.nextId + 1⟩)
  match findNearest dist vst.items e with
  | some (b, d) =>
    if d < dedup_distance then
      (.obj [("memory_id", .str b.memory_id), ("skipped", .bool true),
        ("reason", .str "dedup: near-duplicate exists")], vst)
    else ins
  | none => ins

/-- Comparison by ascending distance for ranking hits. -/
def hitLe (a b : Hit) : Prop := a.distance ≤ b.distance

instance : DecidableRel hitLe := fun a b => by
  unfold hitLe
  infer_instance

/-- Modelled from the spec §4.2: `search(query, k)` — embed the query and
return the k nearest items ordered by ascending distance, each annotated
with distance and metadata; may return fewer than k. -/
def vmem_search (vst : VState E) (q : String) (k : Nat) : List Hit :=
  let e := embed q
  (List.insertionSort hitLe (vst.items.map fun it => Hit.mk it.text it.meta (dist e it.emb))).take k

/-- The §3 invariant: no two retained Memory Items lie within the
configured similarity threshold of each other. -/
def DedupInvariant (vst : VState E) : Prop :=
  vst.items.Pairwise fun a b => dedup_distance ≤ dist a.emb b.emb

theorem findNearest_isSome (e : E) (items : List (VItem E)) (h : items ≠ []) :
    (findNearest dist items e).isSome = true := by
  cases items with
  | nil => exact absurd rfl h
  | cons it tl =>
    rw [findNearest]
    cases htl : findNearest dist tl e with
    | none => rfl
    | some p =>
      obtain ⟨pb, pd⟩ := p
      by_cases hle : dist e it.emb ≤ pd <;> simp [hle]

theorem findNearest_spec (e : E) :
    ∀ items b d, findNearest dist items e = some (b, d) →
      b ∈ items ∧ d = dist e b.emb ∧ ∀ j ∈ items, d ≤ dist e j.emb := by
  intro items
  induction items with
  | nil => intro b d h; exact absurd h (by simp [findNearest])
  | cons it tl ih =>
    intro b d h
    rw [findNearest] at h
    cases htl : findNearest dist tl e with
    | none =>
      rw [htl] at h
      dsimp only at h
      have hinj := Option.some.inj h
      have hb : it = b := congrArg Prod.fst hinj
      have hd : dist e it.emb = d := congrArg Prod.snd hinj
      have hnil : tl = [] := by
        cases hcase : tl with
        | nil => rfl
        | cons y ys =>
          exfalso
          have := findNearest_isSome dist e tl (by rw [hcase]; simp)
          rw [htl] at this
          simp at this
      subst hnil
      subst hb
      refine ⟨by simp, hd.symm, ?_⟩
      intro j hj
      simp at hj
      rw [hj]
      exact le_of_eq hd.symm
    | some p =>
      obtain ⟨pb, pd⟩ := p
      rw [htl] at h
      dsimp only at h
      obtain ⟨hpb, hpd, hmin⟩ := ih pb pd htl
      by_cases hle : dist e it.emb ≤ pd
      · rw [if_pos hle] at h
        have hinj := Option.some.inj h
        have hb : it = b := congrArg Prod.fst hinj
        have hd : dist e it.emb = d := congrArg Prod.snd hinj
        subst hb
        refine ⟨by simp, hd.symm, ?_⟩
        intro j hj
        rcases List.mem_cons.mp hj with hj1 | hj2
        · rw [hj1]
          exact le_of_eq hd.symm
        · rw [← hd]
          exact le_trans hle (hmin j hj2)
      · rw [if_neg hle] at h
        have hinj := Option.some.inj h
        have hb : pb = b := congrArg Prod.fst hinj
        have hd : pd = d := congrArg Prod.snd hinj
        subst hb
        subst hd
        refine ⟨by simp [hpb], hpd, ?_⟩
        intro j hj
        rcases List.mem_cons.mp hj with hj1 | hj2
        · rw [hj1]
          exact le_of_lt (lt_of_not_le hle)
        · exact hmin j hj2

/-- If some retained item carries the embedding of the text being added,
the write is suppressed and the state is unchanged (needs only that the
distance is reflexive-zero, nonnegative, and the threshold positive). -/
theorem vmem_add_skips_of_same_emb
    (hid : ∀ x, dist x x = 0) (hnn : ∀ x y, 0 ≤ dist x y) (hthr : 0 < dedup_distance)
    (vst : VState E) (t : String) (m : Json)
    (hex : ∃ it ∈ vst.items, it.emb = embed t) :
    (vmem_add embed dist dedup_distance vst t m).2 = vst := by
  obtain ⟨it, hit, hemb⟩ := hex
  have hne : vst.items ≠ [] := by
    intro hnil
    rw [hnil] at hit
    simp at hit
  have hsome := findNearest_isSome dist (embed t) vst.items hne
  obtain ⟨⟨b, d⟩, hb⟩ := Option.isSome_iff_exists.mp hsome
  obtain ⟨hbmem, hbd, hmin⟩ := findNearest_spec dist (embed t) vst.items b d hb
  have hd0 : d = 0 := by
    have h1 := hmin it hit
    rw [hemb, hid] at h1
    have h2 : 0 ≤ d := hbd ▸ hnn (embed t) b.emb
    linarith
  rw [vmem_add]
  simp only [hb]
  rw [if_pos (by rw [hd0]; exact hthr)]

end VectorMemory

/-- C9 (dedup idempotence of the semantic memory index), spec-modelled
since `vector_memory.py` is absent from src/. Under the metric axioms for
the embedding distance and a positive threshold: (1) adding text identical
to a retained item (stored with its embedding) returns `skipped=true` with
that item's id and leaves the index unchanged; (2) two successive adds of
the same text grow the index by at most one item; (3) the add operation
preserves the invariant that no two retained items lie within the
threshold of each other. -/
theorem c9_dedup_idempotence {E : Type} (embed : String → E) (dist : E → E → ℚ)
    (dedup_distance : ℚ)
    (hid : ∀ x, dist x x = 0) (hsymm : ∀ x y, dist x y = dist y x)
    (htri : ∀ x y z, dist x z ≤ dist x y + dist y z)
    (hnn : ∀ x y, 0 ≤ dist x y) (hthr : 0 < dedup_distance) :
    (∀ (vst : VState E) (t : String) (m : Json) (it : VItem E),
      DedupInvariant dist dedup_distance vst → it ∈ vst.items → it.text = t →
      it.emb = embed t →
      vmem_add embed dist dedup_distance vst t m =
        (.obj [("memory_id", .str it.memory_id), ("skipped", .bool true),
          ("reason", .str "dedup: near-duplicate exists")], vst)) ∧
    (∀ (vst : VState E) (t : String) (m1 m2 : Json),
      ((vmem_add embed dist dedup_distance
        (vmem_add embed dist dedup_distance vst t m1).2 t m2).2).items.length ≤
        vst.items.length + 1) ∧
    (∀ (vst : VState E) (t : String) (m : Json),
      DedupInvariant dist dedup_distance vst →
      DedupInvariant dist dedup_distance (vmem_add embed dist dedup_distance vst t m).2) := by
  have hmain : ∀ (vst : VState E) (t : String) (m : Json) (it : VItem E),
      DedupInvariant dist dedup_distance vst → it ∈ vst.items → it.text = t →
      it.emb = embed t →
      vmem_add embed dist dedup_distance vst t m =
        (.obj [("memory_id", .str it.memory_id), ("skipped", .bool true),
          ("reason", .str "dedup: near-duplicate exists")], vst) := by
    intro vst t m it hinv hit htext hemb
    have hne : vst.items ≠ [] := by
      intro hnil
      rw [hnil] at hit
      simp at hit
    have hsome := findNearest_isSome dist (embed t) vst.items hne
    obtain ⟨⟨b, d⟩, hb⟩ := Option.isSome_iff_exists.mp hsome
    obtain ⟨hbmem, hbd, hmin⟩ := findNearest_spec dist (embed t) vst.items b d hb
    have hd0 : d = 0 := by
      have h1 := hmin it hit
      rw [hemb, hid] at h1
      have h2 : 0 ≤ d := hbd ▸ hnn (embed t) b.emb
      linarith
    have hbit : b = it := by
      by_contra hne2
      have hsym2 : Symmetric fun a b : VItem E => dedup_distance ≤ dist a.emb b.emb := by
        intro a c hac
        rwa [hsymm]
      have hfar := hinv.forall hsym2 hbmem hit hne2
      have h3 := htri b.emb (embed t) it.emb
      have h4 : dist b.emb (embed t) = 0 := by
        rw [hsymm b.emb (embed t), ← hbd, hd0]
      have h5 : dist (embed t) it.emb = 0 := by
        rw [hemb, hid]
      rw [h4, h5] at h3
      linarith
    rw [vmem_add]
    simp only [hb]
    rw [if_pos (by rw [hd0]; exact hthr)]
    rw [hbit]
  have hgrowth : ∀ (vst : VState E) (t : String) (m : Json),
      ((vmem_add embed dist dedup_distance vst t m).2).items.length ≤
        vst.items.length + 1 := by
    intro vst t m
    rw [vmem_add]
    cases h1 : findNearest dist vst.items (embed t) with
    | some p =>
      obtain ⟨b, d⟩ := p
      by_cases hlt : d < dedup_distance
      · simp [if_pos hlt]
      · simp [if_neg hlt]
    | none => simp
  have hshape : ∀ (vst : VState E) (t : String) (m : Json),
      (vmem_add embed dist dedup_distance vst t m).2 = vst ∨
      (vmem_add embed dist dedup_distance vst t m).2 =
        ⟨vst.items ++ [⟨"mem-" ++ natStr vst.nextId, t, embed t, m⟩], vst.nextId + 1⟩ := by
    intro vst t m
    rw [vmem_add]
    cases h1 : findNearest dist vst.items (embed t) with
    | some p =>
      obtain ⟨b, d⟩ := p
      by_cases hlt : d < dedup_distance
      · simp [if_pos hlt]
      · simp [if_neg hlt]
    | none => simp
  refine ⟨hmain, ?_, ?_⟩
  · intro vst t m1 m2
    rcases hshape vst t m1 with hf | hf
    · rw [hf]
      exact hgrowth vst t m2
    · rw [hf]
      have hsk : (vmem_add embed dist dedup_distance
          (⟨vst.items ++ [⟨"mem-" ++ natStr vst.nextId, t, embed t, m1⟩], vst.nextId + 1⟩ :
            VState E) t m2).2 =
          (⟨vst.items ++ [⟨"mem-" ++ natStr vst.nextId, t, embed t, m1⟩], vst.nextId + 1⟩ :
            VState E) := by
        apply vmem_add_skips_of_same_emb embed dist dedup_distance hid hnn hthr
        exact ⟨⟨"mem-" ++ natStr vst.nextId, t, embed t, m1⟩, by simp, rfl⟩
      rw [hsk]
      simp
  · intro vst t m hinv
    rw [vmem_add]
    cases h1 : findNearest dist vst.items (embed t) with
    | some p =>
      obtain ⟨b, d⟩ := p
      obtain ⟨hbmem, hbd, hmin⟩ := findNearest_spec dist (embed t) vst.items b d h1
      by_cases hlt : d < dedup_distance
      · simpa [if_pos hlt] using hinv
      · simp only [if_neg hlt]
        rw [DedupInvariant] at hinv ⊢
        rw [List.pairwise_append]
        refine ⟨hinv, List.pairwise_singleton _ _, ?_⟩
        intro a ha x hx
        simp at hx
        subst hx
        show dedup_distance ≤ dist a.emb (embed t)
        rw [hsymm a.emb (embed t)]
        have h6 : dedup_distance ≤ d := le_of_not_lt hlt
        have h7 := hmin a ha
        linarith
    | none =>
      have hnil : vst.items = [] := by
        cases h2 : vst.items with
        | nil => rfl
        | cons y ys =>
          exfalso
          have := findNearest_isSome dist (embed t) vst.items (by rw [h2]; simp)
          rw [h1] at this
          simp at this
      rw [DedupInvariant]
      rw [hnil]
      simp

/-- C9 witness: the discrete metric on string embeddings with threshold
one half, applied to an index already holding "hello" — the repeat add is
skipped with the existing id and the index is unchanged. -/
theorem c9_dedup_idempotence_witness :
    vmem_add (fun s => s) (fun x y : String => if x = y then 0 else 1) (1 / 2)
      ⟨[⟨"m0", "hello", "hello", .obj []⟩], 1⟩ "hello" (.obj []) =
      (.obj [("memory_id", .str "m0"), ("skipped", .bool true),
        ("reason", .str "dedup: near-duplicate exists")],
       ⟨[⟨"m0", "hello", "hello", .obj []⟩], 1⟩) := by
  have hmetric := c9_dedup_idempotence (fun s => s)
    (fun x y : String => if x = y then 0 else 1) (1 / 2)
    (fun x => by simp)
    (fun x y => by
      by_cases h : x = y
      · simp [h]
      · show (if x = y then (0 : ℚ) else 1) = (if y = x then 0 else 1)
        rw [if_neg h, if_neg fun h2 => h h2.symm])
    (fun x y z => by
      by_cases h2 : x = y
      · by_cases h3 : y = z
        · have h1 : x = z := h2.trans h3
          simp [h1, h2, h3]
        · have h1 : ¬x = z := fun h => h3 (h2.symm.trans h)
          simp [h1, h2, h3]
      · by_cases h3 : y = z
        · have h1 : ¬x = z := fun h => h2 (h.trans h3.symm)
          simp [h1, h2, h3]
        · by_cases h1 : x = z
          · simp [h1, h2, h3]
            split_ifs <;> norm_num
          · simp [h1, h2, h3])
    (fun x y => by by_cases h : x = y <;> simp [h])
    (by norm_num)
  exact hmetric.1 ⟨[⟨"m0", "hello", "hello", .obj []⟩], 1⟩ "hello" (.obj [])
    ⟨"m0", "hello", "hello", .obj []⟩
    (by simp [DedupInvariant]) (by simp) rfl rfl

/-- The system prompt of agent.py (after `.strip()`), transcribed with
brace and newline escapes. -/
def SYSTEM_PROMPT : String :=
  "You are a compact tool-using agent.\n\nYou have tools:\n- vector_add(text, meta=\x7b...\x7d)\n- vector_search(query, k=5)\n\nYou may also answer directly without tool calls.\n\nYou must ALWAYS output STRICT JSON, in one of the two forms:\n\nA) Tool call:\n\x7b\n  \"type\": \"tool_call\",\n  \"tool\": \"<tool_name>\",\n  \"args\": \x7b ... \x7d,\n  \"why\": \"<short reason>\"\n\x7d\n\nB) Final answer:\n\x7b\n  \"type\": \"final\",\n  \"answer\": \"<answer to the user>\",\n  \"notes\": \"<optional constraints/assumptions>\"\n\x7d\n\nRules:\n- Never fabricate tool results.\n- Prefer vector_search when you might have relevant prior memory.\n- Use vector_add to store durable facts, decisions, preferences, or short summaries.\n- In type=\"final\", answer MUST be a string (not an object/array).\n- Keep tool args minimal and valid."

/-- The external world of one turn: the chat completion service (standing
for the POST to the Ollama /api/chat endpoint, as a function of the
message sequence) and the wall clock (the value of the k-th `time.time()`
call of the turn). -/
structure RunEnv where
  chat : List ChatMsg → String
  clock : Nat → ℚ

/-- The turn metadata. The Bool fields model the presence of the
`fallback` / `max_steps_hit` keys in the Python meta dict; `timings`
keeps the keys of the timings dict in insertion order (the values are
wall-clock measurements, outside the embedding). -/
structure Meta where
  timings : List String
  step_count : Nat
  fallback : Bool
  max_steps_hit : Bool

/-- The outcome of `run_agent_query`: a normal return, or an exception
propagating to the caller (a parse failure, or the TypeError of an
unhashable tool name); either way the database and vector-store side
effects made so far persist. -/
inductive RunOutcome (E : Type) where
  | ok (answer : String) (meta : Meta) (memories : List Hit) (debug_log : String)
      (db : MemoryDB) (vst : VState E)
  | raised (err : String) (db : MemoryDB) (vst : VState E)

/-- The answer of a normal return. -/
def RunOutcome.answer? {E : Type} : RunOutcome E → Option String
  | .ok a _ _ _ _ _ => some a
  | .raised _ _ _ => none

/-- The metadata of a normal return. -/
def RunOutcome.meta? {E : Type} : RunOutcome E → Option Meta
  | .ok _ m _ _ _ _ => some m
  | .raised _ _ _ => none

/-- The memory hits of a normal return. -/
def RunOutcome.memories? {E : Type} : RunOutcome E → Option (List Hit)
  | .ok _ _ mem _ _ _ => some mem
  | .raised _ _ _ => none

/-- The database state after the turn (persisted even on an exception). -/
def RunOutcome.dbOf {E : Type} : RunOutcome E → MemoryDB
  | .ok _ _ _ _ db _ => db
  | .raised _ db _ => db

/-- The vector-store state after the turn. -/
def RunOutcome.vstOf {E : Type} : RunOutcome E → VState E
  | .ok _ _ _ _ _ v => v
  | .raised _ _ v => v

/-- Key insertion for the timings dict: an existing key keeps its place,
a new one is appended (`setdefault` / first assignment). -/
def addKey (ks : List String) (k : String) : List String :=
  if k ∈ ks then ks else ks ++ [k]

/-- Zero-padded four-digit rendering. -/
def pad4 (n : Nat) : String :=
  let s := natChars n
  String.mk (List.replicate (4 - s.length) '0' ++ s)

/-- The `:.4f` distance formatting of `_format_memory_hits` (Python's
binary-float rounding is approximated by exact rational rounding half-up;
this string only feeds the prompt text). -/
def formatFixed4 (q : ℚ) : String :=
  let scaled : Int := Int.floor (q * 10000 + 1 / 2)
  let a := scaled.natAbs
  (if scaled < 0 then "-" else "") ++ natStr (a / 10000) ++ "." ++ pad4 (a % 10000)

/-- The tag chosen for a hit line: `meta.get("tag") or meta.get("type")
or ""` with Python truthiness. -/
def hitTag (h : Hit) : Json :=
  let mkvs := match (if pyTruthy h.metadata then h.metadata else .obj []) with
    | .obj kvs => kvs
    | _ => []
  let t1 := (jGet mkvs "tag").getD .null
  if pyTruthy t1 then t1
  else
    let t2 := (jGet mkvs "type").getD .null
    if pyTruthy t2 then t2 else .str ""

/-- Model of `_format_memory_hits` (agent.py lines 75-84). -/
def format_memory_hits (hits : List Hit) : String :=
  if hits.isEmpty then "Relevant memories: (none)"
  else
    let lines := hits.enum.map fun p =>
      let tag := hitTag p.2
      natStr (p.1 + 1) ++ ". [distance=" ++ formatFixed4 p.2.distance ++ "] " ++
        (if pyTruthy tag then "(" ++ pyStr tag ++ ") " else "") ++ p.2.text
    String.intercalate "\n" ("Relevant memories (semantic search):" :: lines)

/-- The fixed registry of tools (insertion order of the Python dict). -/
def tool_names : List String := ["vector_add", "vector_search"]

/-- The fixed budget-exhaustion message (agent.py line 198). -/
def budget_message : String :=
  "I could not finish within max_steps. Please refine the goal or increase max_steps."

/-- The steering instruction appended after every tool result. -/
def steering_message : String := "Continue using the tool result."

/-- Python comparison `data.get(key) == s`: only an identical string
compares equal. -/
def getEqStr (kvs : List (String × Json)) (key s : String) : Bool :=
  match jGet kvs key with
  | some (.str t) => t == s
  | _ => false

section AgentLoop

variable {E : Type} (embed : String → E) (dist : E → E → ℚ) (dedup_distance : ℚ)

/-- Model of the `vector_add` tool closure with Python argument splatting:
the args dict must be a mapping supplying `text` and at most `meta`;
`dict(meta or \x7b\x7d)` requires a dict or falsy meta; `session_id` is
defaulted in. A non-string `text` fails in the embedding call
(spec-modelled, `vector_memory.py` being absent). All failures are the
caught-exception result `\x7berror, tool, args\x7d`; the error texts
abbreviate Python's wording (no claim observes them). -/
def vector_add_tool (session_id : Nat) (vst : VState E) (args : Json) : Json × VState E :=
  match args with
  | .obj kvs =>
    if !(kvs.map Prod.fst).all (fun k => k == "text" || k == "meta") then
      (.obj [("error", .str "TypeError: unexpected keyword argument"),
        ("tool", .str "vector_add"), ("args", args)], vst)
    else
      match jGet kvs "text" with
      | some (.str text) =>
        let metaArg := (jGet kvs "meta").getD .null
        match (if pyTruthy metaArg then metaArg else .obj []) with
        | .obj mkvs =>
          let m2 := if (jGet mkvs "session_id").isSome then mkvs
            else mkvs ++ [("session_id", .num (session_id : Int))]
          vmem_add embed dist dedup_distance vst text (.obj m2)
        | _ =>
          (.obj [("error", .str "TypeError: meta is not a mapping"),
            ("tool", .str "vector_add"), ("args", args)], vst)
      | some _ =>
        (.obj [("error", .str "embedding requires string text"),
          ("tool", .str "vector_add"), ("args", args)], vst)
      | none =>
        (.obj [("error", .str "TypeError: missing required argument text"),
          ("tool", .str "vector_add"), ("args", args)], vst)
  | _ =>
    (.obj [("error", .str "TypeError: argument after ** must be a mapping"),
      ("tool", .str "vector_add"), ("args", args)], vst)

/-- JSON shape of one search hit as returned to the model. -/
def hitJson (h : Hit) : Json :=
  .obj [("text", .str h.text), ("metadata", h.metadata), ("distance", .flt h.distance)]

/-- Model of the `vector_search` tool closure. Note the Python parameter
is named `q` (the system prompt advertises `query`), so splatting demands
the key `q`. A non-integer `k` fails downstream (spec-modelled). -/
def vector_search_tool (vst : VState E) (args : Json) : Json :=
  match args with
  | .obj kvs =>
    if !(kvs.map Prod.fst).all (fun k => k == "q" || k == "k") then
      .obj [("error", .str "TypeError: unexpected keyword argument"),
        ("tool", .str "vector_search"), ("args", args)]
    else
      match jGet kvs "q" with
      | some (.str q) =>
        match jGet kvs "k" with
        | none =>
          .obj [("hits", .arr ((vmem_search embed dist vst q 5).map hitJson))]
        | some (.num n) =>
          .obj [("hits", .arr ((vmem_search embed dist vst q n.toNat).map hitJson))]
        | some _ =>
          .obj [("error", .str "k must be an integer"),
            ("tool", .str "vector_search"), ("args", args)]
      | some _ =>
        .obj [("error", .str "embedding requires string query"),
          ("tool", .str "vector_search"), ("args", args)]
      | none =>
        .obj [("error", .str "TypeError: missing required argument q"),
          ("tool", .str "vector_search"), ("args", args)]
  | _ =>
    .obj [("error", .str "TypeError: argument after ** must be a mapping"),
      ("tool", .str "vector_search"), ("args", args)]

/-- The tool result fed back for an unregistered name, with the list of
available tools (agent.py line 179). -/
def unknown_tool_result (tool : Option Json) : Json :=
  .obj [("error", .str ("Unknown tool: " ++ pyStrOpt tool)),
    ("available", .arr (tool_names.map .str))]

/-- Outcome of one tool_call routing step. -/
inductive ToolStep (E : Type) where
  | raise (msg : String) : ToolStep E
  | res (tool_result : Json) (vst : VState E) (timed : Bool) : ToolStep E

/-- Routing of `tool not in tools` / `tools[tool](**args)`: a string name
is looked up in the registry; an unhashable tool value (list/dict) makes
the `in` test itself raise, uncaught; any other value is an unknown tool.
`timed` records whether the timed dispatch branch ran. -/
def dispatchTool (session_id : Nat) (vst : VState E) (tool : Option Json) (args : Json) :
    ToolStep E :=
  match tool with
  | some (.arr _) => .raise "TypeError: unhashable type: list"
  | some (.obj _) => .raise "TypeError: unhashable type: dict"
  | some (.str name) =>
    if name = "vector_add" then
      let r := vector_add_tool embed dist dedup_distance session_id vst args
      .res r.1 r.2 true
    else if name = "vector_search" then
      .res (vector_search_tool embed dist vst args) vst true
    else .res (unknown_tool_result tool) vst false
  | _ => .res (unknown_tool_result tool) vst false

/-- The per-turn constants of the agent loop. -/
structure AgentCtx where
  session_id : Nat
  max_steps : Nat

/-- Model of the loop of `run_agent_query` (agent.py lines 143-201).
Arguments after the context: live message sequence, database, vector
store, timing keys, debug lines, the memories captured at turn start, the
wall-clock call counter, the current step number, and the remaining
iterations (`fuel = max_steps - step + 1`); fuel 0 is the loop falling
through to the budget-exhaustion return. -/
def agentLoop (env : RunEnv) (ctx : AgentCtx) :
    List ChatMsg → MemoryDB → VState E → List String → List String → List Hit →
    Nat → Nat → Nat → RunOutcome E
  | _messages, db, vst, timings, debug, memories, tick, _step, 0 =>
    let db2 := add_message db ctx.session_id "assistant" (.pstr budget_message)
      (env.clock tick)
    .ok budget_message ⟨timings, ctx.max_steps, false, true⟩ memories
      (String.intercalate "\n" debug) db2 vst
  | messages, db, vst, timings, debug, memories, tick, step, fuel + 1 =>
    let debug1 := debug ++ ["[agent] step=" ++ natStr step]
    let raw := env.chat messages
    let timings1 := addKey timings "llm_chat_s_total"
    let debug2 := debug1 ++ ["[llm] chat_s="]
    let db1 := add_message db ctx.session_id "assistant"
      (.pjson (.obj [("raw_model_json", .str raw)])) (env.clock tick)
    match parse_json_safely raw with
    | .error e => .raised e db1 vst
    | .ok j =>
      match j with
      | .obj data =>
        if getEqStr data "type" "final" then
          let answer := match (jGet data "answer").getD (.str "") with
            | .str s => s
            | v => dumpsIndent v
          let db2 := add_message db1 ctx.session_id "assistant" (.pstr answer)
            (env.clock (tick + 1))
          .ok answer ⟨timings1, step, false, false⟩ memories
            (String.intercalate "\n" debug2) db2 vst
        else if !getEqStr data "type" "tool_call" then
          let answer := "(fallback) " ++ raw
          let db2 := add_message db1 ctx.session_id "assistant" (.pstr answer)
            (env.clock (tick + 1))
          .ok answer ⟨timings1, step, true, false⟩ memories
            (String.intercalate "\n" debug2) db2 vst
        else
          let tool := jGet data "tool"
          let args :=
            let a := (jGet data "args").getD (.obj [])
            if pyTruthy a then a else .obj []
          let debug3 := debug2 ++
            ["[tool] call=" ++ pyStrOpt tool ++ " args=" ++ pyStr args]
          match dispatchTool embed dist dedup_distance ctx.session_id vst tool args with
          | .raise msg => .raised msg db1 vst
          | .res tool_result vst2 timed =>
            let timings2 := if timed then addKey timings1 "tool_s_total" else timings1
            let debug4 := if timed then debug3 ++ ["[tool] time_s="] else debug3
            let db2 := add_message db1 ctx.session_id "tool" (.pjson tool_result)
              (env.clock (tick + 1))
            let messages2 := messages ++
              [ChatMsg.mk "assistant" (.str (dumps (.obj data))),
               ChatMsg.mk "tool" (.str (dumps tool_result)),
               ChatMsg.mk "user" (.str steering_message)]
            agentLoop env ctx messages2 db2 vst2 timings2 debug4 memories
              (tick + 2) (step + 1) fuel
      | _ => .raised "AttributeError: parsed JSON is not an object" db1 vst

/-- Model of `run_agent_query` (agent.py lines 87-201). The transport
parameters only select the external endpoint and are absorbed into
`env.chat`; `allow_remember` is accepted exactly as in the source. The
`none` branch of `load_tail` models the `json.loads` exception on a
corrupt stored row propagating out of the turn. -/
def run_agent_query (query : String) (session_id : Nat) (mem : MemoryDB) (vmem : VState E)
    (context_tail memory_hits : Nat) (ollama_url ollama_model : String)
    (ollama_timeout : ℚ) (env : RunEnv) (max_steps : Nat := 6)
    (allow_remember : Bool := true) : RunOutcome E :=
  let db1 := add_message mem session_id "user" (.pstr query) (env.clock 0)
  let hits := vmem_search embed dist vmem query memory_hits
  let timings := ["vector_search_total_s", "vector_search_embed_s",
    "vector_search_chroma_query_s", "sqlite_load_tail_s"]
  let debug := ["[vector] hits=" ++ natStr hits.length]
  match load_tail db1 session_id context_tail with
  | none => .raised "JSONDecodeError" db1 vmem
  | some tail =>
    let messages := ChatMsg.mk "system" (.str SYSTEM_PROMPT) ::
      ChatMsg.mk "system" (.str (format_memory_hits hits)) :: tail ++
      [ChatMsg.mk "user" (.str query)]
    agentLoop embed dist dedup_distance env ⟨session_id, max_steps⟩ messages db1 vmem
      timings debug hits 1 1 max_steps

end AgentLoop

/-- C10 (remember flag is inert): two runs differing only in
`allow_remember` are identical in every observable — answer, metadata,
memories, debug log, persisted rows and vector-store state — and the
`vector_add` tool stays in the fixed registry consulted by dispatch in
both. The parameter is accepted and never read, exactly as in the
source. -/
theorem c10_allow_remember_no_effect {E : Type} (embed : String → E) (dist : E → E → ℚ)
    (dedup_distance : ℚ) (query : String) (session_id : Nat) (mem : MemoryDB)
    (vmem : VState E) (context_tail memory_hits : Nat) (ollama_url ollama_model : String)
    (ollama_timeout : ℚ) (env : RunEnv) (max_steps : Nat) :
    run_agent_query embed dist dedup_distance query session_id mem vmem context_tail
        memory_hits ollama_url ollama_model ollama_timeout env max_steps true =
      run_agent_query embed dist dedup_distance query session_id mem vmem context_tail
        memory_hits ollama_url ollama_model ollama_timeout env max_steps false ∧
    "vector_add" ∈ tool_names := by
  refine ⟨rfl, ?_⟩
  rw [tool_names]
  simp

section ClaimLoop

variable {E : Type} (embed : String → E) (dist : E → E → ℚ) (dedup_distance : ℚ)

/-- The wrapper row persisted for a raw model response. -/
def rawWrapJson (raw : String) : Json := .obj [("raw_model_json", .str raw)]

/-- C7 (parse failure raises after the audit write): when the model
response admits no recoverable JSON object, the loop iteration raises
(never returning a fabricated answer) and the raw output has already been
persisted verbatim inside the role-"assistant" wrapper row — the row is in
the database carried by the raised outcome. -/
theorem c7_parse_failure_raises (env : RunEnv) (ctx : AgentCtx)
    (messages : List ChatMsg) (db : MemoryDB) (vst : VState E)
    (timings debug : List String) (memories : List Hit) (tick step fuel : Nat)
    (e : String) (hparse : parse_json_safely (env.chat messages) = .error e) :
    agentLoop embed dist dedup_distance env ctx messages db vst timings debug memories
        tick step (fuel + 1) =
      .raised e (add_message db ctx.session_id "assistant"
        (.pjson (rawWrapJson (env.chat messages))) (env.clock tick)) vst ∧
    (add_message db ctx.session_id "assistant"
        (.pjson (rawWrapJson (env.chat messages))) (env.clock tick)).rows =
      db.rows ++ [⟨db.nextId, ctx.session_id, env.clock tick, "assistant",
        dumps (rawWrapJson (env.chat messages))⟩] := by
  constructor
  · simp only [agentLoop]
    rw [hparse]
    rfl
  · rfl

/-- C7 witness: a response with no JSON object raises with the ValueError
message, and the raised outcome's database ends with the audit row. -/
theorem c7_parse_failure_raises_witness :
    agentLoop (fun s => s) (fun x y : String => if x = y then 0 else 1) (1 / 2)
        ⟨fun _ => "no json here", fun _ => 0⟩ ⟨1, 6⟩ [] MemoryDB.empty
        ⟨[], 0⟩ [] [] [] 0 1 1 =
      .raised (no_json_message "no json here")
        (add_message MemoryDB.empty 1 "assistant"
          (.pjson (rawWrapJson "no json here")) 0) ⟨[], 0⟩ ∧
    (add_message MemoryDB.empty 1 "assistant"
        (.pjson (rawWrapJson "no json here")) 0).rows =
      MemoryDB.empty.rows ++ [⟨1, 1, 0, "assistant", dumps (rawWrapJson "no json here")⟩] :=
  c7_parse_failure_raises (fun s => s) (fun x y : String => if x = y then 0 else 1) (1 / 2)
    ⟨fun _ => "no json here", fun _ => 0⟩ ⟨1, 6⟩ [] MemoryDB.empty ⟨[], 0⟩ [] [] [] 0 1 0
    (no_json_message "no json here") (by rfl)

/-- C8 (non-conforming decision terminates in fallback): a parsed decision
whose type is neither "final" nor "tool_call" ends the turn at this
iteration with the raw text behind the fallback marker as the answer,
persisted under role "assistant", and the metadata carries the fallback
flag. -/
theorem c8_fallback_termination (env : RunEnv) (ctx : AgentCtx)
    (messages : List ChatMsg) (db : MemoryDB) (vst : VState E)
    (timings debug : List String) (memories : List Hit) (tick step fuel : Nat)
    (data : List (String × Json))
    (hparse : parse_json_safely (env.chat messages) = .ok (.obj data))
    (hnf : getEqStr data "type" "final" = false)
    (hnt : getEqStr data "type" "tool_call" = false) :
    agentLoop embed dist dedup_distance env ctx messages db vst timings debug memories
        tick step (fuel + 1) =
      .ok ("(fallback) " ++ env.chat messages)
        ⟨addKey timings "llm_chat_s_total", step, true, false⟩ memories
        (String.intercalate "\n"
          (debug ++ ["[agent] step=" ++ natStr step] ++ ["[llm] chat_s="]))
        (add_message
          (add_message db ctx.session_id "assistant"
            (.pjson (rawWrapJson (env.chat messages))) (env.clock tick))
          ctx.session_id "assistant" (.pstr ("(fallback) " ++ env.chat messages))
          (env.clock (tick + 1))) vst ∧
    (add_message
        (add_message db ctx.session_id "assistant"
          (.pjson (rawWrapJson (env.chat messages))) (env.clock tick))
        ctx.session_id "assistant" (.pstr ("(fallback) " ++ env.chat messages))
        (env.clock (tick + 1))).rows =
      db.rows ++
        [⟨db.nextId, ctx.session_id, env.clock tick, "assistant",
          dumps (rawWrapJson (env.chat messages))⟩,
         ⟨db.nextId + 1, ctx.session_id, env.clock (tick + 1), "assistant",
          dumps (.obj [("content", .str ("(fallback) " ++ env.chat messages))])⟩] := by
  constructor
  · simp only [agentLoop]
    rw [hparse]
    simp only [hnf, hnt]
    rfl
  · simp [add_message]

/-- C8 witness: the decision `\x7b"type": "chat"\x7d` falls through to the
fallback return at step 1. -/
theorem c8_fallback_termination_witness :
    agentLoop (fun s => s) (fun x y : String => if x = y then 0 else 1) (1 / 2)
        ⟨fun _ => "\x7b\"type\": \"chat\"\x7d", fun _ => 0⟩ ⟨1, 6⟩ [] MemoryDB.empty
        ⟨[], 0⟩ [] [] [] 0 1 1 =
      .ok ("(fallback) " ++ "\x7b\"type\": \"chat\"\x7d")
        ⟨addKey [] "llm_chat_s_total", 1, true, false⟩ []
        (String.intercalate "\n" ([] ++ ["[agent] step=" ++ natStr 1] ++ ["[llm] chat_s="]))
        (add_message
          (add_message MemoryDB.empty 1 "assistant"
            (.pjson (rawWrapJson "\x7b\"type\": \"chat\"\x7d")) 0)
          1 "assistant" (.pstr ("(fallback) " ++ "\x7b\"type\": \"chat\"\x7d")) 0) ⟨[], 0⟩ ∧
    (add_message
        (add_message MemoryDB.empty 1 "assistant"
          (.pjson (rawWrapJson "\x7b\"type\": \"chat\"\x7d")) 0)
        1 "assistant" (.pstr ("(fallback) " ++ "\x7b\"type\": \"chat\"\x7d")) 0).rows =
      MemoryDB.empty.rows ++
        [⟨1, 1, 0, "assistant", dumps (rawWrapJson "\x7b\"type\": \"chat\"\x7d")⟩,
         ⟨2, 1, 0, "assistant",
          dumps (.obj [("content", .str ("(fallback) " ++ "\x7b\"type\": \"chat\"\x7d"))])⟩] :=
  c8_fallback_termination (fun s => s) (fun x y : String => if x = y then 0 else 1) (1 / 2)
    ⟨fun _ => "\x7b\"type\": \"chat\"\x7d", fun _ => 0⟩ ⟨1, 6⟩ [] MemoryDB.empty ⟨[], 0⟩
    [] [] [] 0 1 0 [("type", .str "chat")] (by rfl) (by rfl) (by rfl)

/-- A helper for the final branch: the loop-level behaviour of a decision
of type "final" (answer coercion, persistence, termination at this
iteration). -/
theorem loop_final_eq (env : RunEnv) (ctx : AgentCtx)
    (messages : List ChatMsg) (db : MemoryDB) (vst : VState E)
    (timings debug : List String) (memories : List Hit) (tick step fuel : Nat)
    (data : List (String × Json))
    (hparse : parse_json_safely (env.chat messages) = .ok (.obj data))
    (hf : getEqStr data "type" "final" = true) :
    agentLoop embed dist dedup_distance env ctx messages db vst timings debug memories
        tick step (fuel + 1) =
      .ok (match (jGet data "answer").getD (.str "") with
            | .str s => s
            | v => dumpsIndent v)
        ⟨addKey timings "llm_chat_s_total", step, false, false⟩ memories
        (String.intercalate "\n"
          (debug ++ ["[agent] step=" ++ natStr step] ++ ["[llm] chat_s="]))
        (add_message
          (add_message db ctx.session_id "assistant"
            (.pjson (rawWrapJson (env.chat messages))) (env.clock tick))
          ctx.session_id "assistant"
          (.pstr (match (jGet data "answer").getD (.str "") with
            | .str s => s
            | v => dumpsIndent v))
          (env.clock (tick + 1))) vst := by
  simp only [agentLoop]
  rw [hparse]
  simp only [hf]
  rfl

/-- C3 (final decision handling): a parsed decision of type "final"
terminates the loop at this iteration with the answer taken unchanged when
it is a string and pretty-printed otherwise, persisted under role
"assistant"; and a model that always replies
`\x7b"type": "final", "answer": "X"\x7d` finishes the whole turn with
answer "X" and step_count 1. -/
theorem c3_final_termination (env : RunEnv) (ctx : AgentCtx)
    (messages : List ChatMsg) (db : MemoryDB) (vst : VState E)
    (timings debug : List String) (memories : List Hit) (tick step fuel : Nat)
    (data : List (String × Json))
    (hparse : parse_json_safely (env.chat messages) = .ok (.obj data))
    (hf : getEqStr data "type" "final" = true) :
    (agentLoop embed dist dedup_distance env ctx messages db vst timings debug memories
        tick step (fuel + 1) =
      .ok (match (jGet data "answer").getD (.str "") with
            | .str s => s
            | v => dumpsIndent v)
        ⟨addKey timings "llm_chat_s_total", step, false, false⟩ memories
        (String.intercalate "\n"
          (debug ++ ["[agent] step=" ++ natStr step] ++ ["[llm] chat_s="]))
        (add_message
          (add_message db ctx.session_id "assistant"
            (.pjson (rawWrapJson (env.chat messages))) (env.clock tick))
          ctx.session_id "assistant"
          (.pstr (match (jGet data "answer").getD (.str "") with
            | .str s => s
            | v => dumpsIndent v))
          (env.clock (tick + 1))) vst) ∧
    (∀ (query : String) (sid : Nat) (mem : MemoryDB) (vmem : VState E)
      (ct mh : Nat) (ou om : String) (ot : ℚ) (env2 : RunEnv) (ms : Nat) (ar : Bool)
      (tl : List ChatMsg),
      1 ≤ ms →
      (∀ msgs, env2.chat msgs = "\x7b\"type\": \"final\", \"answer\": \"X\"\x7d") →
      load_tail (add_message mem sid "user" (.pstr query) (env2.clock 0)) sid ct = some tl →
      (run_agent_query embed dist dedup_distance query sid mem vmem ct mh ou om ot
          env2 ms ar).answer? = some "X" ∧
      (run_agent_query embed dist dedup_distance query sid mem vmem ct mh ou om ot
          env2 ms ar).meta?.map Meta.step_count = some 1) := by
  constructor
  · exact loop_final_eq embed dist dedup_distance env ctx messages db vst timings debug
      memories tick step fuel data hparse hf
  · intro query sid mem vmem ct mh ou om ot env2 ms ar tl hms hchat htail
    cases ms with
    | zero => omega
    | succ m =>
      simp only [run_agent_query]
      rw [htail]
      dsimp only
      have hp : parse_json_safely (env2.chat (ChatMsg.mk "system" (.str SYSTEM_PROMPT) ::
          ChatMsg.mk "system" (.str (format_memory_hits
            (vmem_search embed dist vmem query mh))) :: tl ++
          [ChatMsg.mk "user" (.str query)])) =
          .ok (.obj [("type", .str "final"), ("answer", .str "X")]) := by
        rw [hchat]
        rfl
      rw [loop_final_eq embed dist dedup_distance env2 ⟨sid, m + 1⟩ _ _ _ _ _ _ _ _ _ _
        hp (by rfl)]
      exact ⟨rfl, rfl⟩

/-- C3 witness: the constant-final model at concrete arguments yields
answer "X" after exactly one step. -/
theorem c3_final_termination_witness :
    (run_agent_query (fun s => s) (fun x y : String => if x = y then 0 else 1) (1 / 2)
      "hi" 1 MemoryDB.empty ⟨[], 0⟩ 0 5 "u" "m" 1
      ⟨fun _ => "\x7b\"type\": \"final\", \"answer\": \"X\"\x7d", fun _ => 0⟩ 6
      true).answer? = some "X" ∧
    (run_agent_query (fun s => s) (fun x y : String => if x = y then 0 else 1) (1 / 2)
      "hi" 1 MemoryDB.empty ⟨[], 0⟩ 0 5 "u" "m" 1
      ⟨fun _ => "\x7b\"type\": \"final\", \"answer\": \"X\"\x7d", fun _ => 0⟩ 6
      true).meta?.map Meta.step_count = some 1 :=
  (c3_final_termination (fun s => s) (fun x y : String => if x = y then 0 else 1) (1 / 2)
    ⟨fun _ => "\x7b\"type\": \"final\", \"answer\": \"X\"\x7d", fun _ => 0⟩ ⟨1, 6⟩
    [] MemoryDB.empty ⟨[], 0⟩ [] [] [] 0 1 0 [("type", .str "final"), ("answer", .str "X")]
    (by rfl) (by rfl)).2
    "hi" 1 MemoryDB.empty ⟨[], 0⟩ 0 5 "u" "m" 1
    ⟨fun _ => "\x7b\"type\": \"final\", \"answer\": \"X\"\x7d", fun _ => 0⟩ 6 true
    [] (by omega) (fun _ => rfl) (by rfl)

/-- Hashability of the Python value looked up as the tool name (a list or
dict makes the containment test itself raise). -/
def isHashable (tool : Option Json) : Bool :=
  match tool with
  | some (.arr _) => false
  | some (.obj _) => false
  | _ => true

/-- Membership of the tool value in the fixed registry (only a string can
match a key). -/
def isRegistered (tool : Option Json) : Bool :=
  match tool with
  | some (.str s) => tool_names.contains s
  | _ => false

theorem getEqStr_unique (data : List (String × Json)) (k s s' : String)
    (h : getEqStr data k s = true) (hne : s' ≠ s) : getEqStr data k s' = false := by
  rw [getEqStr.eq_def] at h ⊢
  cases hj : jGet data k with
  | none =>
    rw [hj] at h
  | some v =>
    rw [hj] at h
    cases v with
    | str t =>
      have h2 : t = s := by simpa using h
      subst h2
      simpa using Ne.symm hne
    | null => simp at h
    | bool b => simp at h
    | num n => simp at h
    | flt q => simp at h
    | arr xs => simp at h
    | obj kvs => simp at h

theorem dispatchTool_unknown (sid : Nat) (vst : VState E) (tool : Option Json) (args : Json)
    (hhash : isHashable tool = true) (hreg : isRegistered tool = false) :
    dispatchTool embed dist dedup_distance sid vst tool args =
      .res (unknown_tool_result tool) vst false := by
  cases tool with
  | none => rfl
  | some v =>
    cases v with
    | arr xs => simp [isHashable] at hhash
    | obj kvs => simp [isHashable] at hhash
    | str s =>
      rw [isRegistered] at hreg
      rw [tool_names] at hreg
      simp at hreg
      rw [dispatchTool]
      rw [if_neg hreg.1, if_neg hreg.2]
    | null => rfl
    | bool b => rfl
    | num n => rfl
    | flt q => rfl

/-- C6 (unknown tool is non-fatal): a tool_call naming a (hashable) value
outside the fixed registry produces the structured
`\x7berror, available\x7d` result, persists it under role "tool", appends
the model's decision, the tool result and the steering instruction to the
live sequence, and continues with the next iteration — the loop step
equals the recursive call, so the turn does not terminate here. -/
theorem c6_unknown_tool_continues (env : RunEnv) (ctx : AgentCtx)
    (messages : List ChatMsg) (db : MemoryDB) (vst : VState E)
    (timings debug : List String) (memories : List Hit) (tick step fuel : Nat)
    (data : List (String × Json))
    (hparse : parse_json_safely (env.chat messages) = .ok (.obj data))
    (ht : getEqStr data "type" "tool_call" = true)
    (hhash : isHashable (jGet data "tool") = true)
    (hreg : isRegistered (jGet data "tool") = false) :
    agentLoop embed dist dedup_distance env ctx messages db vst timings debug memories
        tick step (fuel + 1) =
      agentLoop embed dist dedup_distance env ctx
        (messages ++
          [ChatMsg.mk "assistant" (.str (dumps (.obj data))),
           ChatMsg.mk "tool" (.str (dumps (unknown_tool_result (jGet data "tool")))),
           ChatMsg.mk "user" (.str steering_message)])
        (add_message
          (add_message db ctx.session_id "assistant"
            (.pjson (rawWrapJson (env.chat messages))) (env.clock tick))
          ctx.session_id "tool" (.pjson (unknown_tool_result (jGet data "tool")))
          (env.clock (tick + 1)))
        vst (addKey timings "llm_chat_s_total")
        (debug ++ ["[agent] step=" ++ natStr step] ++ ["[llm] chat_s="] ++
          ["[tool] call=" ++ pyStrOpt (jGet data "tool") ++ " args=" ++
            pyStr (let a := (jGet data "args").getD (.obj [])
                   if pyTruthy a then a else .obj [])])
        memories (tick + 2) (step + 1) fuel ∧
    unknown_tool_result (jGet data "tool") =
      .obj [("error", .str ("Unknown tool: " ++ pyStrOpt (jGet data "tool"))),
        ("available", .arr [.str "vector_add", .str "vector_search"])] ∧
    (add_message
        (add_message db ctx.session_id "assistant"
          (.pjson (rawWrapJson (env.chat messages))) (env.clock tick))
        ctx.session_id "tool" (.pjson (unknown_tool_result (jGet data "tool")))
        (env.clock (tick + 1))).rows =
      db.rows ++
        [⟨db.nextId, ctx.session_id, env.clock tick, "assistant",
          dumps (rawWrapJson (env.chat messages))⟩,
         ⟨db.nextId + 1, ctx.session_id, env.clock (tick + 1), "tool",
          dumps (unknown_tool_result (jGet data "tool"))⟩] := by
  refine ⟨?_, rfl, by simp [add_message]⟩
  have hnf : getEqStr data "type" "final" = false :=
    getEqStr_unique data "type" "tool_call" "final" ht (by decide)
  simp only [agentLoop]
  rw [hparse]
  simp only [hnf, ht]
  rw [dispatchTool_unknown embed dist dedup_distance ctx.session_id vst
    (jGet data "tool") _ hhash hreg]
  rfl

/-- C6 witness: the tool name "frobnicate" is rejected non-fatally and the
loop proceeds into the next iteration. -/
theorem c6_unknown_tool_continues_witness :
    agentLoop (fun s => s) (fun x y : String => if x = y then 0 else 1) (1 / 2)
        ⟨fun _ => "\x7b\"type\": \"tool_call\", \"tool\": \"frobnicate\", \"args\": \x7b\x7d\x7d",
         fun _ => 0⟩ ⟨1, 6⟩ [] MemoryDB.empty ⟨[], 0⟩ [] [] [] 0 1 1 =
      agentLoop (fun s => s) (fun x y : String => if x = y then 0 else 1) (1 / 2)
        ⟨fun _ => "\x7b\"type\": \"tool_call\", \"tool\": \"frobnicate\", \"args\": \x7b\x7d\x7d",
         fun _ => 0⟩ ⟨1, 6⟩
        ([] ++
          [ChatMsg.mk "assistant" (.str (dumps (.obj [("type", .str "tool_call"),
            ("tool", .str "frobnicate"), ("args", .obj [])]))),
           ChatMsg.mk "tool" (.str (dumps (unknown_tool_result (some (.str "frobnicate"))))),
           ChatMsg.mk "user" (.str steering_message)])
        (add_message
          (add_message MemoryDB.empty 1 "assistant"
            (.pjson (rawWrapJson
              "\x7b\"type\": \"tool_call\", \"tool\": \"frobnicate\", \"args\": \x7b\x7d\x7d")) 0)
          1 "tool" (.pjson (unknown_tool_result (some (.str "frobnicate")))) 0)
        ⟨[], 0⟩ (addKey [] "llm_chat_s_total")
        ([] ++ ["[agent] step=" ++ natStr 1] ++ ["[llm] chat_s="] ++
          ["[tool] call=" ++ pyStrOpt (some (.str "frobnicate")) ++ " args=" ++
            pyStr (.obj [])])
        [] 2 2 0 ∧
    unknown_tool_result (some (.str "frobnicate")) =
      .obj [("error", .str ("Unknown tool: " ++ pyStrOpt (some (.str "frobnicate")))),
        ("available", .arr [.str "vector_add", .str "vector_search"])] := by
  have h := c6_unknown_tool_continues (fun s => s)
    (fun x y : String => if x = y then 0 else 1) (1 / 2)
    ⟨fun _ => "\x7b\"type\": \"tool_call\", \"tool\": \"frobnicate\", \"args\": \x7b\x7d\x7d",
     fun _ => 0⟩ ⟨1, 6⟩ [] MemoryDB.empty ⟨[], 0⟩ [] [] [] 0 1 0
    [("type", .str "tool_call"), ("tool", .str "frobnicate"), ("args", .obj [])]
    (by rfl) (by rfl) (by rfl) (by rfl)
  exact ⟨h.1, h.2.1⟩

theorem dispatchTool_res (sid : Nat) (vst : VState E) (tool : Option Json) (args : Json)
    (hhash : isHashable tool = true) :
    ∃ r v t, dispatchTool embed dist dedup_distance sid vst tool args = .res r v t := by
  cases tool with
  | none => exact ⟨_, _, _, rfl⟩
  | some v =>
    cases v with
    | arr xs => simp [isHashable] at hhash
    | obj kvs => simp [isHashable] at hhash
    | str s =>
      rw [dispatchTool]
      by_cases h1 : s = "vector_add"
      · rw [if_pos h1]; exact ⟨_, _, _, rfl⟩
      · rw [if_neg h1]
        by_cases h2 : s = "vector_search"
        · rw [if_pos h2]; exact ⟨_, _, _, rfl⟩
        · rw [if_neg h2]; exact ⟨_, _, _, rfl⟩
    | null => exact ⟨_, _, _, rfl⟩
    | bool b => exact ⟨_, _, _, rfl⟩
    | num n => exact ⟨_, _, _, rfl⟩
    | flt q => exact ⟨_, _, _, rfl⟩

/-- Any normal return of the loop reports either the budget step count
(ctx.max_steps, the fall-through) or a step count of an iteration inside
the remaining fuel. -/
theorem agentLoop_step_bound (env : RunEnv) (ctx : AgentCtx) :
    ∀ (fuel : Nat) (messages : List ChatMsg) (db : MemoryDB) (vst : VState E)
      (timings debug : List String) (memories : List Hit) (tick step : Nat) (m : Meta),
      (agentLoop embed dist dedup_distance env ctx messages db vst timings debug memories
        tick step fuel).meta? = some m →
      m.step_count = ctx.max_steps ∨ (step ≤ m.step_count ∧ m.step_count < step + fuel) := by
  intro fuel
  induction fuel with
  | zero =>
    intro messages db vst timings debug memories tick step m h
    simp only [agentLoop, RunOutcome.meta?, Option.some.injEq] at h
    subst h
    exact Or.inl rfl
  | succ fuel ih =>
    intro messages db vst timings debug memories tick step m h
    simp only [agentLoop] at h
    cases hp : parse_json_safely (env.chat messages) with
    | error e =>
      rw [hp] at h
      simp [RunOutcome.meta?] at h
    | ok j =>
      rw [hp] at h
      cases j with
      | obj data =>
        by_cases hf : getEqStr data "type" "final" = true
        · simp only [hf, reduceIte, RunOutcome.meta?, Option.some.injEq] at h
          subst h
          refine Or.inr ⟨Nat.le_refl _, ?_⟩
          show step < step + (fuel + 1)
          omega
        · rw [Bool.not_eq_true] at hf
          by_cases ht : getEqStr data "type" "tool_call" = true
          · simp only [hf, ht, Bool.not_true, reduceIte] at h
            cases hd : dispatchTool embed dist dedup_distance ctx.session_id vst
                (jGet data "tool")
                (if pyTruthy ((jGet data "args").getD (.obj [])) = true then
                  (jGet data "args").getD (.obj []) else .obj []) with
            | raise msg =>
              rw [hd] at h
              simp [RunOutcome.meta?] at h
            | res r v2 tm =>
              rw [hd] at h
              rcases ih _ _ _ _ _ _ _ _ _ h with h2 | ⟨h2, h3⟩
              · exact Or.inl h2
              · exact Or.inr ⟨by omega, by omega⟩
          · rw [Bool.not_eq_true] at ht
            simp only [hf, ht, Bool.not_false, Bool.false_eq_true, reduceIte, if_true,
              if_false, RunOutcome.meta?, Option.some.injEq] at h
            subst h
            refine Or.inr ⟨Nat.le_refl _, ?_⟩
            show step < step + (fuel + 1)
            omega
      | null => simp [RunOutcome.meta?] at h
      | bool b => simp [RunOutcome.meta?] at h
      | num n => simp [RunOutcome.meta?] at h
      | flt q => simp [RunOutcome.meta?] at h
      | str s => simp [RunOutcome.meta?] at h
      | arr xs => simp [RunOutcome.meta?] at h

/-- If every model reply parses to a tool_call with a hashable tool name,
the loop consumes all its fuel and falls through to the budget return:
the fixed message, max_steps_hit, step count ctx.max_steps, and the
memories captured at turn start. -/
theorem agentLoop_budget (env : RunEnv) (ctx : AgentCtx)
    (hall : ∀ msgs : List ChatMsg, ∃ data,
      parse_json_safely (env.chat msgs) = .ok (.obj data) ∧
      getEqStr data "type" "final" = false ∧
      getEqStr data "type" "tool_call" = true ∧
      isHashable (jGet data "tool") = true) :
    ∀ (fuel : Nat) (messages : List ChatMsg) (db : MemoryDB) (vst : VState E)
      (timings debug : List String) (memories : List Hit) (tick step : Nat),
      ∃ timings2 dbg db2 vst2,
        agentLoop embed dist dedup_distance env ctx messages db vst timings debug memories
          tick step fuel =
        .ok budget_message ⟨timings2, ctx.max_steps, false, true⟩ memories dbg db2 vst2 := by
  intro fuel
  induction fuel with
  | zero =>
    intro messages db vst timings debug memories tick step
    exact ⟨timings, String.intercalate "\n" debug,
      add_message db ctx.session_id "assistant" (.pstr budget_message) (env.clock tick),
      vst, rfl⟩
  | succ fuel ih =>
    intro messages db vst timings debug memories tick step
    obtain ⟨data, hp, hnf, ht, hh⟩ := hall messages
    obtain ⟨r, v2, tm, hd⟩ := dispatchTool_res embed dist dedup_distance ctx.session_id vst
      (jGet data "tool")
      (if pyTruthy ((jGet data "args").getD (.obj [])) = true then
        (jGet data "args").getD (.obj []) else .obj []) hh
    obtain ⟨t2, dg, d2, w2, hIH⟩ := ih
      (messages ++
        [ChatMsg.mk "assistant" (.str (dumps (.obj data))),
         ChatMsg.mk "tool" (.str (dumps r)),
         ChatMsg.mk "user" (.str steering_message)])
      (add_message
        (add_message db ctx.session_id "assistant"
          (.pjson (.obj [("raw_model_json", .str (env.chat messages))])) (env.clock tick))
        ctx.session_id "tool" (.pjson r) (env.clock (tick + 1)))
      v2
      (if tm then addKey (addKey timings "llm_chat_s_total") "tool_s_total"
       else addKey timings "llm_chat_s_total")
      (if tm then
        debug ++ ["[agent] step=" ++ natStr step] ++ ["[llm] chat_s="] ++
          ["[tool] call=" ++ pyStrOpt (jGet data "tool") ++ " args=" ++
            pyStr (if pyTruthy ((jGet data "args").getD (.obj [])) = true then
              (jGet data "args").getD (.obj []) else .obj [])] ++ ["[tool] time_s="]
       else
        debug ++ ["[agent] step=" ++ natStr step] ++ ["[llm] chat_s="] ++
          ["[tool] call=" ++ pyStrOpt (jGet data "tool") ++ " args=" ++
            pyStr (if pyTruthy ((jGet data "args").getD (.obj [])) = true then
              (jGet data "args").getD (.obj []) else .obj [])])
      memories (tick + 2) (step + 1)
    refine ⟨t2, dg, d2, w2, ?_⟩
    simp only [agentLoop]
    rw [hp]
    simp only [hnf, ht]
    rw [hd]
    exact hIH

/-- C2 (budget exhaustion): for every model-response sequence, any normal
return of run_agent_query has step_count at most max_steps; and if every
reply is a tool_call that dispatches without raising, the run returns the
fixed budget-exhaustion message with max_steps_hit = true, step_count =
max_steps, and the memory hits collected at turn start. -/
theorem c2_budget_exhaustion (query : String) (sid : Nat) (mem : MemoryDB) (vmem : VState E)
    (ct mh : Nat) (ou om : String) (ot : ℚ) (env : RunEnv) (ms : Nat) (ar : Bool) :
    (∀ m : Meta,
      (run_agent_query embed dist dedup_distance query sid mem vmem ct mh ou om ot
        env ms ar).meta? = some m → m.step_count ≤ ms) ∧
    ((∀ msgs : List ChatMsg, ∃ data,
        parse_json_safely (env.chat msgs) = .ok (.obj data) ∧
        getEqStr data "type" "final" = false ∧
        getEqStr data "type" "tool_call" = true ∧
        isHashable (jGet data "tool") = true) →
      ∀ tl : List ChatMsg,
        load_tail (add_message mem sid "user" (.pstr query) (env.clock 0)) sid ct = some tl →
        ∃ timings2 dbg db2 vst2,
          run_agent_query embed dist dedup_distance query sid mem vmem ct mh ou om ot
            env ms ar =
          .ok budget_message ⟨timings2, ms, false, true⟩
            (vmem_search embed dist vmem query mh) dbg db2 vst2) := by
  constructor
  · intro m h
    simp only [run_agent_query] at h
    cases hlt : load_tail (add_message mem sid "user" (.pstr query) (env.clock 0)) sid ct with
    | none =>
      rw [hlt] at h
      simp [RunOutcome.meta?] at h
    | some tail =>
      rw [hlt] at h
      rcases agentLoop_step_bound embed dist dedup_distance env ⟨sid, ms⟩ ms _ _ _ _ _ _ _ _
        m h with h2 | ⟨_, h3⟩
      · exact Nat.le_of_eq h2
      · omega
  · intro hall tl htail
    obtain ⟨t2, dg, d2, w2, hB⟩ := agentLoop_budget embed dist dedup_distance env ⟨sid, ms⟩
      hall ms
      (ChatMsg.mk "system" (.str SYSTEM_PROMPT) ::
        ChatMsg.mk "system" (.str (format_memory_hits
          (vmem_search embed dist vmem query mh))) :: tl ++
        [ChatMsg.mk "user" (.str query)])
      (add_message mem sid "user" (.pstr query) (env.clock 0)) vmem
      ["vector_search_total_s", "vector_search_embed_s",
        "vector_search_chroma_query_s", "sqlite_load_tail_s"]
      ["[vector] hits=" ++ natStr (vmem_search embed dist vmem query mh).length]
      (vmem_search embed dist vmem query mh) 1 1
    refine ⟨t2, dg, d2, w2, ?_⟩
    simp only [run_agent_query]
    rw [htail]
    exact hB

/-- C2 witness: a model that always calls vector_search exhausts a budget
of 2 steps and returns the fixed message with max_steps_hit. -/
theorem c2_budget_exhaustion_witness :
    ∃ timings2 dbg db2 vst2,
      run_agent_query (fun s => s) (fun x y : String => if x = y then 0 else 1) (1 / 2)
        "hi" 1 MemoryDB.empty ⟨[], 0⟩ 0 5 "u" "m" 1
        ⟨fun _ => "\x7b\"type\": \"tool_call\", \"tool\": \"vector_search\", \"args\": \x7b\"q\": \"hi\"\x7d\x7d",
         fun _ => 0⟩ 2 true =
      .ok budget_message ⟨timings2, 2, false, true⟩
        (vmem_search (fun s => s) (fun x y : String => if x = y then 0 else 1) ⟨[], 0⟩ "hi" 5)
        dbg db2 vst2 :=
  (c2_budget_exhaustion (fun s => s) (fun x y : String => if x = y then 0 else 1) (1 / 2)
    "hi" 1 MemoryDB.empty ⟨[], 0⟩ 0 5 "u" "m" 1
    ⟨fun _ => "\x7b\"type\": \"tool_call\", \"tool\": \"vector_search\", \"args\": \x7b\"q\": \"hi\"\x7d\x7d",
     fun _ => 0⟩ 2 true).2
    (fun _ => ⟨[("type", .str "tool_call"), ("tool", .str "vector_search"),
      ("args", .obj [("q", .str "hi")])], by rfl, by rfl, by rfl, by rfl⟩)
    [] (by rfl)

/-- C1 (counterexample): the text `x \x7b"a": 1\x7d y \x7b"b": 2\x7d z`
is not a whole-document object, and it embeds the recoverable top-level
JSON object `\x7b"a": 1\x7d` (its prefix holds no opening brace, so that
object is the first one); yet `_parse_json_safely` raises a
JSONDecodeError, because the DOTALL regex match is greedy and spans from
the first opening brace to the last closing brace, producing the
unparseable candidate `\x7b"a": 1\x7d y \x7b"b": 2\x7d`. This refutes
both "the first top-level JSON object embedded in the surrounding text is
located and parsed" and "raises an error only when no recoverable JSON
object exists in the text". -/
theorem c1_counterexample :
    parse_json_safely "x \x7b\"a\": 1\x7d y \x7b\"b\": 2\x7d z" = .error decode_error ∧
    jsonLoads "\x7b\"a\": 1\x7d" = some (.obj [("a", .num 1)]) ∧
    "x \x7b\"a\": 1\x7d y \x7b\"b\": 2\x7d z" =
      "x " ++ "\x7b\"a\": 1\x7d" ++ " y \x7b\"b\": 2\x7d z" ∧
    ("x ".toList.all fun c => !(c = lb)) = true :=
  ⟨rfl, rfl, rfl, rfl⟩

/-- C1 (amended): what `_parse_json_safely` actually does. After
stripping: a text enclosed in braces is parsed whole and returned when it
parses; otherwise the greedy first-brace-to-last-brace span is the only
candidate parsed and returned when it parses; and when no such span
exists the ValueError with the echoed text is raised. (When the selected
candidate fails to parse, the JSONDecodeError propagates even if a
smaller embedded object would have parsed — see the counterexample.) -/
theorem c1_amended (text : String) :
    (∀ v : Json, (pyStrip text).toList.head? = some lb →
        (pyStrip text).toList.getLast? = some rb →
        jsonLoads (pyStrip text) = some v →
        parse_json_safely text = .ok v) ∧
    (∀ (sl : List Char) (v : Json),
        ¬((pyStrip text).toList.head? = some lb ∧
          (pyStrip text).toList.getLast? = some rb) →
        braceSlice (pyStrip text).toList = some sl →
        jsonLoads (String.mk sl) = some v →
        parse_json_safely text = .ok v) ∧
    (¬((pyStrip text).toList.head? = some lb ∧
        (pyStrip text).toList.getLast? = some rb) →
      braceSlice (pyStrip text).toList = none →
      parse_json_safely text = .error (no_json_message (pyStrip text))) := by
  refine ⟨?_, ?_, ?_⟩
  · intro v h1 h2 hload
    simp only [parse_json_safely]
    rw [if_pos ⟨h1, h2⟩, hload]
  · intro sl v hne hslice hload
    simp only [parse_json_safely]
    rw [if_neg hne, hslice]
    dsimp only
    rw [hload]
  · intro hne hslice
    simp only [parse_json_safely]
    rw [if_neg hne, hslice]

/-- C1 witness for the amended theorem: on `x \x7b"a": 1\x7d y` the
greedy span is exactly the embedded object, which parses. -/
theorem c1_amended_witness :
    parse_json_safely "x \x7b\"a\": 1\x7d y" = .ok (.obj [("a", .num 1)]) :=
  (c1_amended "x \x7b\"a\": 1\x7d y").2.1 "\x7b\"a\": 1\x7d".toList
    (.obj [("a", .num 1)]) (by decide) (by rfl) (by rfl)

end ClaimLoop

end OmegaGridAgent
